import Mathlib

/-!
Verification development for the Schedules repository.

The repository contains two sibling implementations of the same scheduling
core: a React application (`src/App.jsx` together with `src/lib/time.js`)
and a vanilla-JS snapshot (the unnamed module exporting `findFirstConflict`,
here called the "B side").  Both are embedded below as executable Lean
definitions over `String` / `List Char`, translated function by function
from the JavaScript source.  JavaScript strings are modelled as Lean
strings; `split`, `trim`, `padStart`, `toLowerCase` and `includes` are
re-implemented structurally on `List Char` so that every definition reduces
in the kernel.
-/

namespace Schedules

/-! ### JavaScript string primitives -/

/-- The characters matched by JavaScript `\s` (the ones that can occur in
this data set; the exotic Unicode space classes never appear). -/
def jsWhitespace (c : Char) : Bool :=
  c = ' ' || c = '\t' || c = '\n' || c = '\r' || c = Char.ofNat 11 ||
    c = Char.ofNat 12 || c = Char.ofNat 160

/-- `String.prototype.split` with a single-character separator. -/
def splitOnChar (sep : Char) : List Char → List (List Char)
  | [] => [[]]
  | c :: rest =>
    let r := splitOnChar sep rest
    if c = sep then [] :: r
    else
      match r with
      | [] => [[c]]
      | h :: t => (c :: h) :: t

/-- `String.prototype.trim` (whitespace stripped from both ends). -/
def trimL (s : List Char) : List Char :=
  ((s.dropWhile jsWhitespace).reverse.dropWhile jsWhitespace).reverse

/-- `value.padStart(2, "0")`. -/
def padTwo (s : List Char) : List Char :=
  if 2 ≤ s.length then s else List.replicate (2 - s.length) '0' ++ s

/-- Does `pat` occur at the head of `s`? -/
def isPrefixList : List Char → List Char → Bool
  | [], _ => true
  | _ :: _, [] => false
  | p :: ps, c :: cs => p = c && isPrefixList ps cs

/-- `String.prototype.includes` (substring containment). -/
def hasInfixList (pat : List Char) : List Char → Bool
  | [] => isPrefixList pat []
  | c :: rest => isPrefixList pat (c :: rest) || hasInfixList pat rest

/-- Numeric value of a digit string. -/
def digitsVal (s : List Char) : Nat :=
  s.foldl (fun n c => n * 10 + (c.toNat - 48)) 0

/-- JavaScript `Number(...)` on the strings that occur in this code base:
whitespace is trimmed, the empty string is `0`, a non-empty digit string is
its value, anything else is `NaN` (modelled as `none`). -/
def jsNum (s : List Char) : Option Nat :=
  let t := trimL s
  if t.isEmpty then some 0
  else if t.all Char.isDigit then some (digitsVal t) else none

/-- ASCII lower-casing, as `toLowerCase` acts on this data set. -/
def lowerL (s : List Char) : List Char := s.map Char.toLower

def strSplit (sep : Char) (s : String) : List String :=
  (splitOnChar sep s.data).map (fun l => ⟨l⟩)

def strTrim (s : String) : String := ⟨trimL s.data⟩

/-- `s.includes(pat)`. -/
def strIncludes (s pat : String) : Bool := hasInfixList pat.data s.data

/-! ### `src/lib/time.js` (the React side, "A side") -/

/-- `DAYS` from `time.js`. -/
def DAYS : List String :=
  ["Saturday", "Sunday", "Monday", "Tuesday", "Wednesday", "Thursday"]

/-- `TIME_SLOTS` (identical lists in `time.js` and in the B side). -/
def TIME_SLOTS : List String :=
  ["08:45 - 09:30", "09:30 - 10:15", "10:15 - 11:00", "11:00 - 11:45",
   "11:45 - 12:30", "12:30 - 13:15", "13:15 - 14:00", "14:00 - 14:45",
   "14:45 - 15:30", "15:30 - 16:15", "16:15 - 17:00", "17:00 - 17:45"]

/-- `DAY_MAP[n]` with the `|| "Unknown"` fallback applied by the callers. -/
def dayMap (n : Int) : String :=
  if n = 1 then "Sunday"
  else if n = 2 then "Monday"
  else if n = 3 then "Tuesday"
  else if n = 4 then "Wednesday"
  else if n = 5 then "Thursday"
  else if n = 6 then "Friday"
  else if n = 7 then "Saturday"
  else "Unknown"

/-- `normalizeType` (shared verbatim between the two sides and `App.jsx`). -/
def normalizeType (type : String) : String :=
  ⟨(lowerL type.data).filter (fun c => !jsWhitespace c)⟩

/-- `forcedSpanByType` from `time.js`: only `"sub"` forces span 2 here. -/
def forcedSpanByType (type : String) : Nat :=
  if strIncludes (normalizeType type) "sub" then 2 else 1

/-- A catalog session row.  Field names follow the JSON data; `courseId`,
`courseName` and `source` are the fields `App.jsx` adds when projecting
catalog rows, and are the empty string until set. -/
structure Session where
  DayWeekName : String := ""
  DayWeek : Int := 0
  Time : String := ""
  «Type» : String := ""
  GroupId : Int := 0
  GroupName : String := ""
  Staff : String := ""
  IntervalId : String := ""
  NameEn : String := ""
  courseId : String := ""
  courseName : String := ""
  source : String := ""
  isModified : Bool := false
  modifiedReason : String := ""
  deriving Repr, DecidableEq

/-- `normalizeDay` from `time.js`. -/
def normalizeDay (e : Session) : String :=
  if strTrim e.DayWeekName ≠ "" then strTrim e.DayWeekName
  else dayMap e.DayWeek

/-- `toHHMM` from `time.js` (destructures the first two `":"` fields; a
missing minutes field means `null`). -/
def toHHMM (value : List Char) : Option (List Char) :=
  match splitOnChar ':' value with
  | h :: m :: _ => some (padTwo h ++ ':' :: padTwo m)
  | _ => none

/-- The trimmed text before the first `"-"` of a time label. -/
def firstDashField (time : String) : List Char :=
  trimL (((splitOnChar '-' time.data).headD []))

/-- The normalized start clock of a raw time text (`toHHMM(rawStart)`). -/
def startClockOf (time : String) : Option (List Char) :=
  toHHMM (firstDashField time)

/-- `findIndex` on a list, as an `Option Nat`. -/
def findIdxOpt (p : α → Bool) : List α → Option Nat
  | [] => none
  | a :: as => if p a then some 0 else (findIdxOpt p as).map (· + 1)

/-- `startSlotIndex` from `time.js` (JavaScript returns `-1` on failure,
embedded here as `none`). -/
def startSlotIndex (time : String) : Option Nat :=
  match startClockOf time with
  | none => none
  | some hhmm => findIdxOpt (fun slot => firstDashField slot = hhmm) TIME_SLOTS

/-- The `{start, end, span}` record of `slotRange` (`end` is a keyword, so
the exclusive end index is called `stop`). -/
structure SlotRange where
  start : Nat
  stop : Nat
  span : Nat
  deriving Repr, DecidableEq

/-- `slotRange` from `time.js`. -/
def slotRange (e : Session) : Option SlotRange :=
  match startSlotIndex e.Time with
  | none => none
  | some start =>
    let span := forcedSpanByType e.«Type»
    if TIME_SLOTS.length < start + span then none
    else some ⟨start, start + span, span⟩

/-- `rangesOverlap` from `time.js`. -/
def rangesOverlap (a b : SlotRange) : Bool :=
  decide (a.start < b.stop) && decide (b.start < a.stop)

/-- The trimmed text after the first `"-"` of a slot label
(`slot.split("-")[1].trim()`). -/
def secondDashField (time : String) : List Char :=
  trimL (((splitOnChar '-' time.data).getD 1 []))

/-- `overlapLabel` from `time.js`. -/
def overlapLabel (a b : SlotRange) : String :=
  let s := max a.start b.start
  let e := min a.stop b.stop
  if e ≤ s then ""
  else
    let first : List Char := (splitOnChar '-' ((TIME_SLOTS.getD s "").data)).headD []
    let second : List Char := (splitOnChar '-' ((TIME_SLOTS.getD (e - 1) "").data)).getD 1 []
    ⟨trimL first ++ " - ".data ++ trimL second⟩

/-! ### The vanilla-JS conflict module (the "B side") -/

/-- `DAY_ORDER` from the B side: a five-day week, no Saturday. -/
def DAY_ORDER : List String :=
  ["Sunday", "Monday", "Tuesday", "Wednesday", "Thursday"]

/-- `normalizeClock` from the B side (split on `":"`, pad both fields). -/
def normalizeClock (value : List Char) : Option (List Char) :=
  match splitOnChar ':' value with
  | h :: m :: _ => some (padTwo h ++ ':' :: padTwo m)
  | _ => none

/-- `toClockRange`: the text must split on `"-"` into exactly two parts and
both parts must normalize.  (`normalizeClock` never returns the empty
string, so the JavaScript falsiness check is exactly the `null` check.) -/
def toClockRange (timeRange : String) : Option (List Char × List Char) :=
  if timeRange = "" then none
  else
    match (splitOnChar '-' timeRange.data).map trimL with
    | [p1, p2] =>
      match normalizeClock p1, normalizeClock p2 with
      | some a, some b => some (a, b)
      | _, _ => none
    | _ => none

/-- `getForcedSpanByType` from the B side: `"sub"` or `"lab"` force span 2. -/
def getForcedSpanByType (typeText : String) : Nat :=
  let n := normalizeType typeText
  if n = "subgroup" || n = "sub" || strIncludes n "sub" || strIncludes n "lab"
  then 2 else 1

/-- `SLOT_RANGES[i].startClock`. -/
def slotStartClock (slot : String) : Option (List Char) :=
  normalizeClock (trimL ((splitOnChar '-' slot.data).headD []))

/-- `SLOT_RANGES[i].endClock`. -/
def slotEndClock (slot : String) : Option (List Char) :=
  normalizeClock (trimL ((splitOnChar '-' slot.data).getD 1 []))

/-- The `{startIndex, endIndexExclusive}` record of the B side. -/
structure SlotRangeB where
  startIndex : Nat
  endIndexExclusive : Nat
  deriving Repr, DecidableEq

/-- `parseTimeRangeToSlotRange` from the B side. -/
def parseTimeRangeToSlotRange (timeRange : String) (typeText : String) :
    Option SlotRangeB :=
  match toClockRange timeRange with
  | none => none
  | some clocks =>
    match findIdxOpt (fun slot => slotStartClock slot = some clocks.1) TIME_SLOTS with
    | none => none
    | some startIndex =>
      let span := getForcedSpanByType typeText
      if TIME_SLOTS.length < startIndex + span then none
      else some ⟨startIndex, startIndex + span⟩

/-- `normalizeDayName` from the B side (same body as `normalizeDay`). -/
def normalizeDayName (e : Session) : String :=
  if strTrim e.DayWeekName ≠ "" then strTrim e.DayWeekName
  else dayMap e.DayWeek

/-- `isSlotOverlap` from the B side. -/
def isSlotOverlap (a b : SlotRangeB) : Bool :=
  decide (a.startIndex < b.endIndexExclusive) &&
    decide (b.startIndex < a.endIndexExclusive)

/-- `formatSlotRange` from the B side.  (`SLOT_RANGES[-1]` is `undefined`
in JavaScript, hence the explicit guard for an exclusive end of `0`.) -/
def formatSlotRange : Option SlotRangeB → String
  | none => ""
  | some r =>
    if r.endIndexExclusive = 0 then ""
    else
      match TIME_SLOTS.get? r.startIndex, TIME_SLOTS.get? (r.endIndexExclusive - 1) with
      | some s1, some s2 =>
        match slotStartClock s1, slotEndClock s2 with
        | some a, some b => ⟨a ++ " - ".data ++ b⟩
        | _, _ => ""
      | _, _ => ""

/-- The conflict record returned by `findFirstConflict`. -/
structure ConflictB where
  candidate : Session
  existing : Session
  overlapSlotRange : SlotRangeB
  deriving Repr, DecidableEq

/-- The inner loop of `findFirstConflict` over `currentSessions`. -/
def scanExisting (a : Session) (dayA : String) (ra : SlotRangeB) :
    List Session → Option ConflictB
  | [] => none
  | b :: rest =>
    if normalizeDayName b ≠ dayA then scanExisting a dayA ra rest
    else
      match parseTimeRangeToSlotRange b.Time b.«Type» with
      | none => scanExisting a dayA ra rest
      | some rb =>
        if isSlotOverlap ra rb then
          some ⟨a, b, ⟨max ra.startIndex rb.startIndex,
                        min ra.endIndexExclusive rb.endIndexExclusive⟩⟩
        else scanExisting a dayA ra rest

/-- `findFirstConflict` from the B side. -/
def findFirstConflict : List Session → List Session → Option ConflictB
  | [], _ => none
  | a :: rest, cur =>
    let dayA := normalizeDayName a
    if !(DAY_ORDER.contains dayA) then findFirstConflict rest cur
    else
      match parseTimeRangeToSlotRange a.Time a.«Type» with
      | none => findFirstConflict rest cur
      | some ra =>
        match scanExisting a dayA ra cur with
        | some r => some r
        | none => findFirstConflict rest cur

/-! ### `findConflict` from `App.jsx` -/

/-- The conflict record returned by `App.jsx`'s `findConflict`: the
candidate session itself is not part of the result. -/
structure ConflictA where
  day : String
  existing : Session
  overlap : String
  deriving Repr, DecidableEq

/-- The inner loop of `findConflict` over `existing`. -/
def scanExistingA (dayA : String) (ra : SlotRange) :
    List Session → Option ConflictA
  | [] => none
  | b :: rest =>
    let dayB := normalizeDay b
    match slotRange b with
    | none => scanExistingA dayA ra rest
    | some rb =>
      if dayA ≠ dayB then scanExistingA dayA ra rest
      else if rangesOverlap ra rb then some ⟨dayA, b, overlapLabel ra rb⟩
      else scanExistingA dayA ra rest

/-- `findConflict` from `App.jsx`. -/
def findConflict : List Session → List Session → Option ConflictA
  | [], _ => none
  | a :: rest, existing =>
    let dayA := normalizeDay a
    match slotRange a with
    | none => findConflict rest existing
    | some ra =>
      if !(DAYS.contains dayA) then findConflict rest existing
      else
        match scanExistingA dayA ra existing with
        | some r => some r
        | none => findConflict rest existing

/-! ### Basic lemmas about the string / search primitives -/

theorem findIdxOpt_eq_none {α : Type} {p : α → Bool} {l : List α} :
    findIdxOpt p l = none ↔ ∀ a ∈ l, p a = false := by
  induction l with
  | nil => simp [findIdxOpt]
  | cons a as ih =>
    by_cases h : p a
    · simp [findIdxOpt, h]
    · simp [findIdxOpt, h, ih]

theorem findIdxOpt_eq_some {α : Type} {p : α → Bool} (d : α) {l : List α}
    {i : Nat} :
    findIdxOpt p l = some i ↔
      i < l.length ∧ p (l.getD i d) = true ∧ ∀ k < i, p (l.getD k d) = false := by
  induction l generalizing i with
  | nil => simp [findIdxOpt]
  | cons a as ih =>
    by_cases h : p a
    · simp only [findIdxOpt, h, if_pos]
      constructor
      · rintro h0
        cases h0
        exact ⟨by simp, by simpa using h, by omega⟩
      · rintro ⟨-, hp, hmin⟩
        rcases Nat.eq_zero_or_pos i with rfl | hpos
        · rfl
        · have := hmin 0 hpos
          simp only [List.getD_cons_zero] at this
          rw [h] at this
          cases this
    · simp only [findIdxOpt, h, if_neg, Bool.false_eq_true, not_false_iff]
      constructor
      · intro hmap
        rcases Option.map_eq_some'.mp hmap with ⟨j, hj, rfl⟩
        rcases (ih).mp hj with ⟨hlen, hget, hmin⟩
        refine ⟨by simpa using Nat.succ_lt_succ hlen, by simpa using hget, ?_⟩
        intro k hk
        rcases Nat.eq_zero_or_pos k with rfl | hkpos
        · simpa using h
        · have hk' : k - 1 < j := by omega
          have := hmin (k - 1) hk'
          have hks : k = (k - 1) + 1 := by omega
          rw [hks]
          simpa using this
      · rintro ⟨hlen, hget, hmin⟩
        rcases Nat.eq_zero_or_pos i with rfl | hpos
        · simp only [List.getD_cons_zero] at hget
          rw [hget] at h
          cases h rfl
        · have hj : findIdxOpt p as = some (i - 1) := by
            refine (ih).mpr ⟨by simp at hlen; omega, ?_, ?_⟩
            · have his : i = (i - 1) + 1 := by omega
              rw [his] at hget
              simpa using hget
            · intro k hk
              have := hmin (k + 1) (by omega)
              simpa using this
          rw [hj]
          simp
          omega

/-- The twelve configured slots have pairwise distinct start boundaries. -/
theorem slotStarts_injective :
    ∀ i : Fin 12, ∀ j : Fin 12,
      firstDashField (TIME_SLOTS.getD i.val "") =
        firstDashField (TIME_SLOTS.getD j.val "") → i = j := by
  decide

/-- The B-side span test reduces to the two substring tests: the equality
comparisons with `"subgroup"` and `"sub"` are absorbed by
`includes("sub")`. -/
theorem getForcedSpanByType_eq (ty : String) :
    getForcedSpanByType ty =
      if strIncludes (normalizeType ty) "sub" || strIncludes (normalizeType ty) "lab"
      then 2 else 1 := by
  unfold getForcedSpanByType
  generalize normalizeType ty = n
  by_cases h1 : n = "subgroup"
  · subst h1; decide
  · by_cases h2 : n = "sub"
    · subst h2; decide
    · simp [h1, h2]

/-- Each span function only ever produces 1 or 2. -/
theorem span_values (ty : String) :
    (getForcedSpanByType ty = 1 ∨ getForcedSpanByType ty = 2) ∧
      (forcedSpanByType ty = 1 ∨ forcedSpanByType ty = 2) := by
  rw [getForcedSpanByType_eq]
  unfold forcedSpanByType
  constructor <;> [skip; skip] <;> split <;> simp

/-- Does the raw time text of a session start exactly at the start boundary
of configured slot `i`?  (Spec-side reading of "the start clock aligns to a
configured slot boundary".) -/
def startsAtSlot (time : String) (i : Nat) : Bool :=
  match startClockOf time with
  | some hh => firstDashField (TIME_SLOTS.getD i "") = hh
  | none => false

theorem startSlotIndex_eq_none (time : String) :
    startSlotIndex time = none ↔
      ∀ i < TIME_SLOTS.length, startsAtSlot time i = false := by
  unfold startSlotIndex
  cases hc : startClockOf time with
  | none =>
    simp only [true_iff]
    intro i _
    unfold startsAtSlot
    rw [hc]
  | some hh =>
    rw [findIdxOpt_eq_none]
    constructor
    · intro h i hi
      unfold startsAtSlot
      rw [hc]
      have hmem : TIME_SLOTS.getD i "" ∈ TIME_SLOTS := by
        rw [List.getD_eq_getElem TIME_SLOTS "" hi]
        exact List.getElem_mem hi
      simpa using h _ hmem
    · intro h a ha
      rcases List.mem_iff_getElem.mp ha with ⟨i, hi, rfl⟩
      have := h i hi
      unfold startsAtSlot at this
      rw [hc] at this
      simp only [decide_eq_false_iff_not] at this
      rw [List.getD_eq_getElem TIME_SLOTS "" hi] at this
      simpa using this

theorem startSlotIndex_eq_some (time : String) (i : Nat) :
    startSlotIndex time = some i ↔
      i < TIME_SLOTS.length ∧ startsAtSlot time i = true := by
  unfold startSlotIndex
  cases hc : startClockOf time with
  | none =>
    constructor
    · intro h
      cases h
    · rintro ⟨-, hhit⟩
      unfold startsAtSlot at hhit
      rw [hc] at hhit
      cases hhit
  | some hh =>
    rw [findIdxOpt_eq_some ""]
    constructor
    · rintro ⟨hi, hget, -⟩
      refine ⟨hi, ?_⟩
      unfold startsAtSlot
      rw [hc]
      exact hget
    · rintro ⟨hi, hhit⟩
      unfold startsAtSlot at hhit
      rw [hc] at hhit
      refine ⟨hi, hhit, ?_⟩
      intro k hk
      by_contra hkhit
      simp only [Bool.not_eq_false] at hkhit
      have hklen : k < TIME_SLOTS.length := lt_trans hk hi
      have hlen : TIME_SLOTS.length = 12 := by decide
      have hi12 : i < 12 := hlen ▸ hi
      have hk12 : k < 12 := hlen ▸ hklen
      have hk' : firstDashField (TIME_SLOTS.getD k "") = hh := by simpa using hkhit
      have hi' : firstDashField (TIME_SLOTS.getD i "") = hh := by simpa using hhit
      have : (⟨k, hk12⟩ : Fin 12) = ⟨i, hi12⟩ :=
        slotStarts_injective _ _ (hk'.trans hi'.symm)
      have : k = i := congrArg Fin.val this
      omega

/-- C1: the slot-range overlap predicate, on both sides, is exactly the
half-open interval test `a.start < b.endExclusive && b.start < a.endExclusive`;
the spec scenario: two Monday sessions on slot ranges `[2,3)` and `[3,5)`
(touching at slot 3) do not conflict, while `[2,4)` and `[3,5)` conflict
with overlap sub-range `[3,4)`. -/
theorem claim_C1 :
    (∀ a b : SlotRangeB, isSlotOverlap a b = true ↔
        a.startIndex < b.endIndexExclusive ∧ b.startIndex < a.endIndexExclusive) ∧
    (∀ a b : SlotRange, rangesOverlap a b = true ↔
        a.start < b.stop ∧ b.start < a.stop) ∧
    parseTimeRangeToSlotRange "10:15 - 11:00" "Group" = some ⟨2, 3⟩ ∧
    parseTimeRangeToSlotRange "11:00 - 12:30" "Sub Group" = some ⟨3, 5⟩ ∧
    parseTimeRangeToSlotRange "10:15 - 11:45" "Sub Group" = some ⟨2, 4⟩ ∧
    findFirstConflict
        [{DayWeekName := "Monday", Time := "10:15 - 11:00", «Type» := "Group"}]
        [{DayWeekName := "Monday", Time := "11:00 - 12:30", «Type» := "Sub Group"}] =
      none ∧
    findFirstConflict
        [{DayWeekName := "Monday", Time := "10:15 - 11:45", «Type» := "Sub Group"}]
        [{DayWeekName := "Monday", Time := "11:00 - 12:30", «Type» := "Sub Group"}] =
      some ⟨{DayWeekName := "Monday", Time := "10:15 - 11:45", «Type» := "Sub Group"},
            {DayWeekName := "Monday", Time := "11:00 - 12:30", «Type» := "Sub Group"},
            ⟨3, 4⟩⟩ := by
  refine ⟨?_, ?_, by decide, by decide, by decide, by decide, by decide⟩
  · intro a b
    simp [isSlotOverlap]
  · intro a b
    simp [rangesOverlap]

/-- C2 counterexample: the claim asserts that, in both implementations, any
kind containing "lab" yields span 2; the React-side `forcedSpanByType`
returns 1 on the kind "Lab" even though its normalization contains "lab"
(only the B side honours "lab"). -/
theorem claim_C2_counterexample :
    strIncludes (normalizeType "Lab") "lab" = true ∧
      forcedSpanByType "Lab" = 1 ∧ getForcedSpanByType "Lab" = 2 := by
  decide

/-- C2 (amended): after case- and whitespace-insensitive normalization the
B-side `getForcedSpanByType` yields span 2 exactly for kinds containing
"sub" or "lab" and 1 otherwise, while the React-side `forcedSpanByType`
yields 2 exactly for kinds containing "sub" (a "lab"-only kind spans 1
there). -/
theorem claim_C2 (ty : String) :
    (getForcedSpanByType ty = 2 ↔
        (strIncludes (normalizeType ty) "sub" = true ∨
          strIncludes (normalizeType ty) "lab" = true)) ∧
    (getForcedSpanByType ty = 1 ↔
        ¬(strIncludes (normalizeType ty) "sub" = true ∨
          strIncludes (normalizeType ty) "lab" = true)) ∧
    (forcedSpanByType ty = 2 ↔ strIncludes (normalizeType ty) "sub" = true) ∧
    (forcedSpanByType ty = 1 ↔ strIncludes (normalizeType ty) "sub" = false) := by
  cases hs : strIncludes (normalizeType ty) "sub" <;>
    cases hl : strIncludes (normalizeType ty) "lab" <;>
      simp [getForcedSpanByType_eq, forcedSpanByType, hs, hl]

/-- The React side's `slotRange` fails exactly when the start clock matches
no configured slot boundary or the matched index plus the forced span runs
past the last slot; otherwise the range is
`{start := i, endExclusive := i + span}`. -/
theorem slotRange_spec (e : Session) :
    (slotRange e = none ↔
        (∀ i < TIME_SLOTS.length, startsAtSlot e.Time i = false) ∨
        (∃ i < TIME_SLOTS.length, startsAtSlot e.Time i = true ∧
            TIME_SLOTS.length < i + forcedSpanByType e.«Type»)) ∧
    (∀ r, slotRange e = some r ↔
        ∃ i < TIME_SLOTS.length, startsAtSlot e.Time i = true ∧
          i + forcedSpanByType e.«Type» ≤ TIME_SLOTS.length ∧
          r = ⟨i, i + forcedSpanByType e.«Type», forcedSpanByType e.«Type»⟩) := by
  constructor
  · unfold slotRange
    cases hidx : startSlotIndex e.Time with
    | none =>
      rw [startSlotIndex_eq_none] at hidx
      simp only [true_iff]
      exact Or.inl hidx
    | some i =>
      dsimp only
      rw [startSlotIndex_eq_some] at hidx
      by_cases hspan : TIME_SLOTS.length < i + forcedSpanByType e.«Type»
      · simp only [hspan, if_pos, true_iff]
        exact Or.inr ⟨i, hidx.1, hidx.2, hspan⟩
      · rw [if_neg hspan]
        constructor
        · intro h
          cases h
        · rintro (hnone | ⟨j, hj, hjhit, hjspan⟩)
          · have := hnone i hidx.1
            rw [hidx.2] at this
            cases this
          · have hij : i = j := by
              have h1 := (startSlotIndex_eq_some e.Time i).mpr hidx
              have h2 := (startSlotIndex_eq_some e.Time j).mpr ⟨hj, hjhit⟩
              have := h1.symm.trans h2
              simpa using this
            subst hij
            exact absurd hjspan hspan
  · intro r
    unfold slotRange
    cases hidx : startSlotIndex e.Time with
    | none =>
      rw [startSlotIndex_eq_none] at hidx
      constructor
      · intro h
        cases h
      · rintro ⟨i, hi, hhit, -⟩
        have := hidx i hi
        rw [hhit] at this
        cases this
    | some i =>
      dsimp only
      rw [startSlotIndex_eq_some] at hidx
      by_cases hspan : TIME_SLOTS.length < i + forcedSpanByType e.«Type»
      · rw [if_pos hspan]
        constructor
        · intro h
          cases h
        · rintro ⟨j, hj, hjhit, hjspan, -⟩
          have hij : i = j := by
            have h1 := (startSlotIndex_eq_some e.Time i).mpr hidx
            have h2 := (startSlotIndex_eq_some e.Time j).mpr ⟨hj, hjhit⟩
            simpa using h1.symm.trans h2
          subst hij
          exact absurd hspan (by omega)
      · rw [if_neg hspan]
        rw [Option.some_inj]
        constructor
        · rintro rfl
          exact ⟨i, hidx.1, hidx.2, by omega, rfl⟩
        · rintro ⟨j, hj, hjhit, hjspan, rfl⟩
          have hij : i = j := by
            have h1 := (startSlotIndex_eq_some e.Time i).mpr hidx
            have h2 := (startSlotIndex_eq_some e.Time j).mpr ⟨hj, hjhit⟩
            simpa using h1.symm.trans h2
          subst hij
          rfl

/-! ### First-hit scans

Both conflict detectors are nested first-hit scans; the generic combinator
and its two characterization lemmas below factor out that shape. -/

/-- First `some` produced by `f` along a list. -/
def firstHit {α β : Type} (f : α → Option β) : List α → Option β
  | [] => none
  | a :: as =>
    match f a with
    | some r => some r
    | none => firstHit f as

theorem firstHit_eq_none {α β : Type} {f : α → Option β} {l : List α} :
    firstHit f l = none ↔ ∀ a ∈ l, f a = none := by
  induction l with
  | nil => simp [firstHit]
  | cons a as ih =>
    cases h : f a with
    | some r => simp [firstHit, h]
    | none => simp [firstHit, h, ih]

theorem firstHit_eq_some {α β : Type} {f : α → Option β} (dft : α)
    {l : List α} {r : β} :
    firstHit f l = some r ↔
      ∃ i < l.length, f (l.getD i dft) = some r ∧
        ∀ k < i, f (l.getD k dft) = none := by
  induction l generalizing r with
  | nil => simp [firstHit]
  | cons a as ih =>
    cases h : f a with
    | some r0 =>
      simp only [firstHit, h, Option.some_inj]
      constructor
      · rintro rfl
        exact ⟨0, by simp, by simpa using h, by omega⟩
      · rintro ⟨i, hi, hget, hmin⟩
        rcases Nat.eq_zero_or_pos i with rfl | hpos
        · simp only [List.getD_cons_zero] at hget
          rw [h] at hget
          exact Option.some_inj.mp hget
        · have := hmin 0 hpos
          simp only [List.getD_cons_zero] at this
          rw [h] at this
          cases this
    | none =>
      simp only [firstHit, h]
      rw [ih]
      constructor
      · rintro ⟨i, hi, hget, hmin⟩
        refine ⟨i + 1, by simpa using Nat.succ_lt_succ hi, by simpa using hget, ?_⟩
        intro k hk
        rcases Nat.eq_zero_or_pos k with rfl | hkpos
        · simpa using h
        · have hk' : k - 1 < i := by omega
          have := hmin (k - 1) hk'
          have hks : k = (k - 1) + 1 := by omega
          rw [hks]
          simpa using this
      · rintro ⟨i, hi, hget, hmin⟩
        rcases Nat.eq_zero_or_pos i with rfl | hpos
        · simp only [List.getD_cons_zero] at hget
          rw [h] at hget
          cases hget
        · refine ⟨i - 1, by simp at hi; omega, ?_, ?_⟩
          · have his : i = (i - 1) + 1 := by omega
            rw [his] at hget
            simpa using hget
          · intro k hk
            have := hmin (k + 1) (by omega)
            simpa using this

/-! ### Characterization of `findFirstConflict` -/

/-- The default (all-fields-empty) session, used as a `getD` fallback. -/
def emptySession : Session := {}

/-- The overlap sub-range recorded by `findFirstConflict`. -/
def overlapRangeB (ra rb : SlotRangeB) : SlotRangeB :=
  ⟨max ra.startIndex rb.startIndex, min ra.endIndexExclusive rb.endIndexExclusive⟩

/-- Spec-side reading of "candidate `a` conflicts with existing `b`": the
candidate's day is mapped, both slot ranges parse, the days agree, and the
ranges overlap. -/
def conflictPair (a b : Session) : Bool :=
  DAY_ORDER.contains (normalizeDayName a) &&
    (normalizeDayName b = normalizeDayName a) &&
    (match parseTimeRangeToSlotRange a.Time a.«Type»,
           parseTimeRangeToSlotRange b.Time b.«Type» with
     | some ra, some rb => isSlotOverlap ra rb
     | _, _ => false)

/-- The conflict record a pair would produce (defined when both parse). -/
def mkConflictB (a b : Session) : Option ConflictB :=
  match parseTimeRangeToSlotRange a.Time a.«Type»,
        parseTimeRangeToSlotRange b.Time b.«Type» with
  | some ra, some rb => some ⟨a, b, overlapRangeB ra rb⟩
  | _, _ => none

/-- One existing session's step of the inner scan. -/
def innerScan (a : Session) (dayA : String) (ra : SlotRangeB) (b : Session) :
    Option ConflictB :=
  if normalizeDayName b ≠ dayA then none
  else
    match parseTimeRangeToSlotRange b.Time b.«Type» with
    | none => none
    | some rb =>
      if isSlotOverlap ra rb then some ⟨a, b, overlapRangeB ra rb⟩ else none

/-- One candidate session's step of the outer scan. -/
def candScan (cur : List Session) (a : Session) : Option ConflictB :=
  if !(DAY_ORDER.contains (normalizeDayName a)) then none
  else
    match parseTimeRangeToSlotRange a.Time a.«Type» with
    | none => none
    | some ra => scanExisting a (normalizeDayName a) ra cur

theorem scanExisting_eq_firstHit (a : Session) (dayA : String)
    (ra : SlotRangeB) (cur : List Session) :
    scanExisting a dayA ra cur = firstHit (innerScan a dayA ra) cur := by
  induction cur with
  | nil => rfl
  | cons b rest ih =>
    unfold scanExisting firstHit innerScan
    by_cases hday : normalizeDayName b ≠ dayA
    · rw [if_pos hday, if_pos hday]
      exact ih
    · rw [if_neg hday, if_neg hday]
      cases hp : parseTimeRangeToSlotRange b.Time b.«Type» with
      | none =>
        dsimp only
        exact ih
      | some rb =>
        dsimp only
        by_cases hov : isSlotOverlap ra rb
        · rw [if_pos hov, if_pos hov]
          rfl
        · rw [if_neg hov, if_neg hov]
          exact ih

theorem findFirstConflict_eq_firstHit (cand cur : List Session) :
    findFirstConflict cand cur = firstHit (candScan cur) cand := by
  induction cand with
  | nil => rfl
  | cons a rest ih =>
    unfold findFirstConflict firstHit candScan
    by_cases hday : DAY_ORDER.contains (normalizeDayName a)
    · simp only [hday, Bool.not_true, Bool.false_eq_true, if_neg, not_false_iff]
      cases hp : parseTimeRangeToSlotRange a.Time a.«Type» with
      | none =>
        dsimp only
        exact ih
      | some ra =>
        dsimp only
        rw [scanExisting_eq_firstHit]
        cases firstHit (innerScan a (normalizeDayName a) ra) cur with
        | none => exact ih
        | some r => rfl
    · simp only [hday, Bool.not_false, if_pos]
      exact ih

theorem innerScan_eq_none {a b : Session} {ra : SlotRangeB}
    (hday : DAY_ORDER.contains (normalizeDayName a) = true)
    (hpa : parseTimeRangeToSlotRange a.Time a.«Type» = some ra) :
    (innerScan a (normalizeDayName a) ra b = none ↔ conflictPair a b = false) := by
  unfold innerScan conflictPair
  rw [hday, hpa]
  by_cases hd : normalizeDayName b ≠ normalizeDayName a
  · rw [if_pos hd]
    cases hp : parseTimeRangeToSlotRange b.Time b.«Type» <;> simp [hd]
  · rw [if_neg hd]
    push_neg at hd
    cases hp : parseTimeRangeToSlotRange b.Time b.«Type» with
    | none =>
      dsimp only
      simp [hd]
    | some rb =>
      dsimp only
      by_cases hov : isSlotOverlap ra rb
      · rw [if_pos hov]
        simp [hd, hov]
      · rw [if_neg hov]
        simp only [Bool.not_eq_true] at hov
        simp [hd, hov]

theorem innerScan_eq_some {a b : Session} {ra : SlotRangeB} {r : ConflictB}
    (hday : DAY_ORDER.contains (normalizeDayName a) = true)
    (hpa : parseTimeRangeToSlotRange a.Time a.«Type» = some ra) :
    (innerScan a (normalizeDayName a) ra b = some r ↔
      conflictPair a b = true ∧ mkConflictB a b = some r) := by
  unfold innerScan conflictPair mkConflictB
  rw [hday, hpa]
  by_cases hd : normalizeDayName b ≠ normalizeDayName a
  · rw [if_pos hd]
    cases hp : parseTimeRangeToSlotRange b.Time b.«Type» <;> simp [hd]
  · rw [if_neg hd]
    push_neg at hd
    cases hp : parseTimeRangeToSlotRange b.Time b.«Type» with
    | none =>
      dsimp only
      simp [hd]
    | some rb =>
      dsimp only
      by_cases hov : isSlotOverlap ra rb
      · rw [if_pos hov]
        simp [hd, hov]
      · rw [if_neg hov]
        simp only [Bool.not_eq_true] at hov
        simp [hd, hov]

theorem candScan_eq_none {cur : List Session} {a : Session} :
    candScan cur a = none ↔ ∀ b ∈ cur, conflictPair a b = false := by
  unfold candScan
  by_cases hday : DAY_ORDER.contains (normalizeDayName a)
  · simp only [hday, Bool.not_true, Bool.false_eq_true, if_neg, not_false_iff]
    cases hpa : parseTimeRangeToSlotRange a.Time a.«Type» with
    | none =>
      dsimp only
      simp only [true_iff]
      intro b _
      unfold conflictPair
      rw [hpa]
      cases parseTimeRangeToSlotRange b.Time b.«Type» <;> simp
    | some ra =>
      dsimp only
      rw [scanExisting_eq_firstHit, firstHit_eq_none]
      constructor
      · intro h b hb
        exact (innerScan_eq_none hday hpa).mp (h b hb)
      · intro h b hb
        exact (innerScan_eq_none hday hpa).mpr (h b hb)
  · simp only [hday, Bool.not_false, if_pos, true_iff]
    intro b _
    unfold conflictPair
    simp only [Bool.not_eq_true] at hday
    rw [hday]
    simp

theorem candScan_eq_some {cur : List Session} {a : Session} {r : ConflictB} :
    candScan cur a = some r ↔
      ∃ j < cur.length, conflictPair a (cur.getD j emptySession) = true ∧
        (∀ k < j, conflictPair a (cur.getD k emptySession) = false) ∧
        mkConflictB a (cur.getD j emptySession) = some r := by
  unfold candScan
  by_cases hday : DAY_ORDER.contains (normalizeDayName a)
  · simp only [hday, Bool.not_true, Bool.false_eq_true, if_neg, not_false_iff]
    cases hpa : parseTimeRangeToSlotRange a.Time a.«Type» with
    | none =>
      dsimp only
      constructor
      · intro h
        cases h
      · rintro ⟨j, hj, hcp, -, -⟩
        unfold conflictPair at hcp
        rw [hpa] at hcp
        cases hpb : parseTimeRangeToSlotRange (cur.getD j emptySession).Time
            (cur.getD j emptySession).«Type» <;>
          rw [hpb] at hcp <;> simp at hcp
    | some ra =>
      dsimp only
      rw [scanExisting_eq_firstHit, firstHit_eq_some emptySession]
      constructor
      · rintro ⟨j, hj, hhit, hmin⟩
        exact ⟨j, hj, ((innerScan_eq_some hday hpa).mp hhit).1,
          fun k hk => (innerScan_eq_none hday hpa).mp (hmin k hk),
          ((innerScan_eq_some hday hpa).mp hhit).2⟩
      · rintro ⟨j, hj, hcp, hmin, hmk⟩
        exact ⟨j, hj, (innerScan_eq_some hday hpa).mpr ⟨hcp, hmk⟩,
          fun k hk => (innerScan_eq_none hday hpa).mpr (hmin k hk)⟩
  · constructor
    · intro h
      simp only [hday, Bool.not_false, if_pos] at h
      cases h
    · rintro ⟨j, hj, hcp, -, -⟩
      unfold conflictPair at hcp
      simp only [Bool.not_eq_true] at hday
      rw [hday] at hcp
      simp at hcp

theorem firstHit_cons {α β : Type} (f : α → Option β) (a : α) (as : List α) :
    firstHit f (a :: as) =
      match f a with
      | some r => some r
      | none => firstHit f as := rfl

theorem firstHit_filter {α β : Type} {f : α → Option β} {p : α → Bool}
    (h : ∀ a, p a = false → f a = none) (l : List α) :
    firstHit f l = firstHit f (l.filter p) := by
  induction l with
  | nil => rfl
  | cons a as ih =>
    cases hp : p a with
    | false =>
      rw [List.filter_cons_of_neg (by simp [hp]), firstHit_cons, h a hp]
      exact ih
    | true =>
      rw [List.filter_cons_of_pos (by simp [hp]), firstHit_cons, firstHit_cons]
      cases f a <;> simp [ih]

theorem innerScan_of_unparsable {a b : Session} {dayA : String} {ra : SlotRangeB}
    (hb : (parseTimeRangeToSlotRange b.Time b.«Type»).isSome = false) :
    innerScan a dayA ra b = none := by
  unfold innerScan
  by_cases hd : normalizeDayName b ≠ dayA
  · rw [if_pos hd]
  · rw [if_neg hd]
    cases hp : parseTimeRangeToSlotRange b.Time b.«Type» with
    | none => rfl
    | some rb =>
      rw [hp] at hb
      cases hb

theorem scanExisting_filter (a : Session) (dayA : String) (ra : SlotRangeB)
    (cur : List Session) :
    scanExisting a dayA ra cur =
      scanExisting a dayA ra
        (cur.filter fun b => (parseTimeRangeToSlotRange b.Time b.«Type»).isSome) := by
  rw [scanExisting_eq_firstHit, scanExisting_eq_firstHit]
  exact firstHit_filter (fun b hb => innerScan_of_unparsable hb) cur

theorem candScan_filter (cur : List Session) :
    candScan cur =
      candScan (cur.filter fun b =>
        (parseTimeRangeToSlotRange b.Time b.«Type»).isSome) := by
  funext a
  unfold candScan
  by_cases hday : DAY_ORDER.contains (normalizeDayName a)
  · simp only [hday, Bool.not_true, Bool.false_eq_true, if_neg, not_false_iff]
    cases hpa : parseTimeRangeToSlotRange a.Time a.«Type» with
    | none => rfl
    | some ra =>
      dsimp only
      exact scanExisting_filter a (normalizeDayName a) ra cur
  · have h2 : ¬ normalizeDayName a ∈ DAY_ORDER := by simpa using hday
    simp [h2]

theorem candScan_of_invalid {cur : List Session} {a : Session}
    (ha : (DAY_ORDER.contains (normalizeDayName a) &&
      (parseTimeRangeToSlotRange a.Time a.«Type»).isSome) = false) :
    candScan cur a = none := by
  unfold candScan
  rcases Bool.and_eq_false_iff.mp ha with hc | hp
  · have h2 : ¬ normalizeDayName a ∈ DAY_ORDER := by simpa using hc
    simp [h2]
  · by_cases hday : DAY_ORDER.contains (normalizeDayName a)
    · simp only [hday, Bool.not_true, Bool.false_eq_true, if_neg, not_false_iff]
      cases hpa : parseTimeRangeToSlotRange a.Time a.«Type» with
      | none => rfl
      | some ra =>
        rw [hpa] at hp
        cases hp
    · have h2 : ¬ normalizeDayName a ∈ DAY_ORDER := by simpa using hday
      simp [h2]

/-! The same characterization for the React side's `findConflict`. -/

/-- Spec-side reading of "candidate `a` conflicts with existing `b`" on the
React side: the candidate's day is in the `DAYS` whitelist, both slot
ranges parse, the days agree, and the ranges overlap. -/
def conflictPairA (a b : Session) : Bool :=
  DAYS.contains (normalizeDay a) &&
    (normalizeDay b = normalizeDay a) &&
    (match slotRange a, slotRange b with
     | some ra, some rb => rangesOverlap ra rb
     | _, _ => false)

/-- The conflict record a pair would produce on the React side. -/
def mkConflictA (a b : Session) : Option ConflictA :=
  match slotRange a, slotRange b with
  | some ra, some rb => some ⟨normalizeDay a, b, overlapLabel ra rb⟩
  | _, _ => none

/-- One existing session's step of `scanExistingA`. -/
def innerScanA (dayA : String) (ra : SlotRange) (b : Session) :
    Option ConflictA :=
  match slotRange b with
  | none => none
  | some rb =>
    if dayA ≠ normalizeDay b then none
    else if rangesOverlap ra rb then some ⟨dayA, b, overlapLabel ra rb⟩
    else none

/-- One candidate session's step of `findConflict`. -/
def candScanA (existing : List Session) (a : Session) : Option ConflictA :=
  match slotRange a with
  | none => none
  | some ra =>
    if !(DAYS.contains (normalizeDay a)) then none
    else scanExistingA (normalizeDay a) ra existing

theorem scanExistingA_eq_firstHit (dayA : String) (ra : SlotRange)
    (cur : List Session) :
    scanExistingA dayA ra cur = firstHit (innerScanA dayA ra) cur := by
  induction cur with
  | nil => rfl
  | cons b rest ih =>
    unfold scanExistingA firstHit innerScanA
    cases hp : slotRange b with
    | none =>
      dsimp only
      exact ih
    | some rb =>
      dsimp only
      by_cases hday : dayA ≠ normalizeDay b
      · rw [if_pos hday, if_pos hday]
        exact ih
      · rw [if_neg hday, if_neg hday]
        by_cases hov : rangesOverlap ra rb
        · rw [if_pos hov, if_pos hov]
        · rw [if_neg hov, if_neg hov]
          exact ih

theorem findConflict_eq_firstHit (cand cur : List Session) :
    findConflict cand cur = firstHit (candScanA cur) cand := by
  induction cand with
  | nil => rfl
  | cons a rest ih =>
    unfold findConflict firstHit candScanA
    cases hp : slotRange a with
    | none =>
      dsimp only
      exact ih
    | some ra =>
      dsimp only
      by_cases hday : DAYS.contains (normalizeDay a)
      · simp only [hday, Bool.not_true, Bool.false_eq_true, if_neg,
          not_false_iff]
        rw [scanExistingA_eq_firstHit]
        cases firstHit (innerScanA (normalizeDay a) ra) cur with
        | none => exact ih
        | some r => rfl
      · simp only [hday, Bool.not_false, if_pos]
        exact ih

theorem innerScanA_eq_none {a b : Session} {ra : SlotRange}
    (hday : DAYS.contains (normalizeDay a) = true)
    (hpa : slotRange a = some ra) :
    (innerScanA (normalizeDay a) ra b = none ↔ conflictPairA a b = false) := by
  unfold innerScanA conflictPairA
  rw [hday, hpa]
  cases hp : slotRange b with
  | none =>
    dsimp only
    simp
  | some rb =>
    dsimp only
    by_cases hd : normalizeDay a ≠ normalizeDay b
    · rw [if_pos hd]
      simp [show ¬ normalizeDay b = normalizeDay a from fun he => hd he.symm]
    · rw [if_neg hd]
      push_neg at hd
      by_cases hov : rangesOverlap ra rb
      · rw [if_pos hov]
        simp [hd.symm, hov]
      · rw [if_neg hov]
        simp only [Bool.not_eq_true] at hov
        simp [hd.symm, hov]

theorem innerScanA_eq_some {a b : Session} {ra : SlotRange} {r : ConflictA}
    (hday : DAYS.contains (normalizeDay a) = true)
    (hpa : slotRange a = some ra) :
    (innerScanA (normalizeDay a) ra b = some r ↔
      conflictPairA a b = true ∧ mkConflictA a b = some r) := by
  unfold innerScanA conflictPairA mkConflictA
  rw [hday, hpa]
  cases hp : slotRange b with
  | none =>
    dsimp only
    simp
  | some rb =>
    dsimp only
    by_cases hd : normalizeDay a ≠ normalizeDay b
    · rw [if_pos hd]
      simp [show ¬ normalizeDay b = normalizeDay a from fun he => hd he.symm]
    · rw [if_neg hd]
      push_neg at hd
      by_cases hov : rangesOverlap ra rb
      · rw [if_pos hov]
        simp [hd.symm, hov]
      · rw [if_neg hov]
        simp only [Bool.not_eq_true] at hov
        simp [hd.symm, hov]

theorem candScanA_eq_none {cur : List Session} {a : Session} :
    candScanA cur a = none ↔ ∀ b ∈ cur, conflictPairA a b = false := by
  unfold candScanA
  cases hpa : slotRange a with
  | none =>
    dsimp only
    simp only [true_iff]
    intro b _
    unfold conflictPairA
    rw [hpa]
    cases slotRange b <;> simp
  | some ra =>
    dsimp only
    by_cases hday : DAYS.contains (normalizeDay a)
    · simp only [hday, Bool.not_true, Bool.false_eq_true, if_neg,
        not_false_iff]
      rw [scanExistingA_eq_firstHit, firstHit_eq_none]
      constructor
      · intro h b hb
        exact (innerScanA_eq_none hday hpa).mp (h b hb)
      · intro h b hb
        exact (innerScanA_eq_none hday hpa).mpr (h b hb)
    · simp only [hday, Bool.not_false, if_pos, true_iff]
      intro b _
      unfold conflictPairA
      simp only [Bool.not_eq_true] at hday
      rw [hday]
      simp

theorem candScanA_eq_some {cur : List Session} {a : Session} {r : ConflictA} :
    candScanA cur a = some r ↔
      ∃ j < cur.length, conflictPairA a (cur.getD j emptySession) = true ∧
        (∀ k < j, conflictPairA a (cur.getD k emptySession) = false) ∧
        mkConflictA a (cur.getD j emptySession) = some r := by
  unfold candScanA
  cases hpa : slotRange a with
  | none =>
    dsimp only
    constructor
    · intro h
      cases h
    · rintro ⟨j, hj, hcp, -, -⟩
      unfold conflictPairA at hcp
      rw [hpa] at hcp
      cases hpb : slotRange (cur.getD j emptySession) <;>
        rw [hpb] at hcp <;> simp at hcp
  | some ra =>
    dsimp only
    by_cases hday : DAYS.contains (normalizeDay a)
    · simp only [hday, Bool.not_true, Bool.false_eq_true, if_neg,
        not_false_iff]
      rw [scanExistingA_eq_firstHit, firstHit_eq_some emptySession]
      constructor
      · rintro ⟨j, hj, hhit, hmin⟩
        exact ⟨j, hj, ((innerScanA_eq_some hday hpa).mp hhit).1,
          fun k hk => (innerScanA_eq_none hday hpa).mp (hmin k hk),
          ((innerScanA_eq_some hday hpa).mp hhit).2⟩
      · rintro ⟨j, hj, hcp, hmin, hmk⟩
        exact ⟨j, hj, (innerScanA_eq_some hday hpa).mpr ⟨hcp, hmk⟩,
          fun k hk => (innerScanA_eq_none hday hpa).mpr (hmin k hk)⟩
    · constructor
      · intro h
        simp only [hday, Bool.not_false, if_pos] at h
        cases h
      · rintro ⟨j, hj, hcp, -, -⟩
        unfold conflictPairA at hcp
        simp only [Bool.not_eq_true] at hday
        rw [hday] at hcp
        simp at hcp

theorem innerScanA_of_unparsable {dayA : String} {ra : SlotRange}
    {b : Session} (hb : (slotRange b).isSome = false) :
    innerScanA dayA ra b = none := by
  unfold innerScanA
  cases hp : slotRange b with
  | none => rfl
  | some rb =>
    rw [hp] at hb
    cases hb

theorem scanExistingA_filter (dayA : String) (ra : SlotRange)
    (cur : List Session) :
    scanExistingA dayA ra cur =
      scanExistingA dayA ra (cur.filter fun b => (slotRange b).isSome) := by
  rw [scanExistingA_eq_firstHit, scanExistingA_eq_firstHit]
  exact firstHit_filter (fun b hb => innerScanA_of_unparsable hb) cur

theorem candScanA_filter (cur : List Session) :
    candScanA cur =
      candScanA (cur.filter fun b => (slotRange b).isSome) := by
  funext a
  unfold candScanA
  cases hpa : slotRange a with
  | none => rfl
  | some ra =>
    dsimp only
    by_cases hday : DAYS.contains (normalizeDay a)
    · simp only [hday, Bool.not_true, Bool.false_eq_true, if_neg,
        not_false_iff]
      exact scanExistingA_filter (normalizeDay a) ra cur
    · have h2 : ¬ normalizeDay a ∈ DAYS := by simpa using hday
      simp [h2]

theorem candScanA_of_invalid {cur : List Session} {a : Session}
    (ha : (DAYS.contains (normalizeDay a) && (slotRange a).isSome) = false) :
    candScanA cur a = none := by
  unfold candScanA
  rcases Bool.and_eq_false_iff.mp ha with hc | hp
  · cases hpa : slotRange a with
    | none => rfl
    | some ra =>
      dsimp only
      have h2 : ¬ normalizeDay a ∈ DAYS := by simpa using hc
      simp [h2]
  · cases hpa : slotRange a with
    | none => rfl
    | some ra =>
      rw [hpa] at hp
      cases hp

/-- C3: each conflict detector returns exactly the first conflicting
(candidate, existing) pair in candidate-then-existing iteration order,
together with its overlap sub-range (a slot-index range on the vanilla-JS
side, a printed label on the React side); each returns `null` iff no pair
conflicts; and sessions whose day is unmapped or whose time range fails to
parse are silently skipped on both sides — dropping them from either list
never changes the result. -/
theorem claim_C3 (cand cur : List Session) :
    (findFirstConflict cand cur = none ↔
        ∀ a ∈ cand, ∀ b ∈ cur, conflictPair a b = false) ∧
    (∀ r, findFirstConflict cand cur = some r ↔
        ∃ i < cand.length, ∃ j < cur.length,
          conflictPair (cand.getD i emptySession) (cur.getD j emptySession) = true ∧
          (∀ i2 < i, ∀ b ∈ cur, conflictPair (cand.getD i2 emptySession) b = false) ∧
          (∀ j2 < j,
            conflictPair (cand.getD i emptySession) (cur.getD j2 emptySession) = false) ∧
          mkConflictB (cand.getD i emptySession) (cur.getD j emptySession) = some r) ∧
    findFirstConflict cand cur =
      findFirstConflict
        (cand.filter fun a =>
          DAY_ORDER.contains (normalizeDayName a) &&
            (parseTimeRangeToSlotRange a.Time a.«Type»).isSome)
        (cur.filter fun b =>
          (parseTimeRangeToSlotRange b.Time b.«Type»).isSome) ∧
    (findConflict cand cur = none ↔
        ∀ a ∈ cand, ∀ b ∈ cur, conflictPairA a b = false) ∧
    (∀ r, findConflict cand cur = some r ↔
        ∃ i < cand.length, ∃ j < cur.length,
          conflictPairA (cand.getD i emptySession)
            (cur.getD j emptySession) = true ∧
          (∀ i2 < i, ∀ b ∈ cur,
            conflictPairA (cand.getD i2 emptySession) b = false) ∧
          (∀ j2 < j, conflictPairA (cand.getD i emptySession)
            (cur.getD j2 emptySession) = false) ∧
          mkConflictA (cand.getD i emptySession)
            (cur.getD j emptySession) = some r) ∧
    findConflict cand cur =
      findConflict
        (cand.filter fun a =>
          DAYS.contains (normalizeDay a) && (slotRange a).isSome)
        (cur.filter fun b => (slotRange b).isSome) := by
  refine ⟨?_, ?_, ?_, ?_, ?_, ?_⟩
  · rw [findFirstConflict_eq_firstHit, firstHit_eq_none]
    constructor
    · intro h a ha b hb
      exact (candScan_eq_none.mp (h a ha)) b hb
    · intro h a ha
      exact candScan_eq_none.mpr (h a ha)
  · intro r
    rw [findFirstConflict_eq_firstHit, firstHit_eq_some emptySession]
    constructor
    · rintro ⟨i, hi, hsome, hmin⟩
      rcases candScan_eq_some.mp hsome with ⟨j, hj, hcp, hjmin, hmk⟩
      exact ⟨i, hi, j, hj, hcp,
        fun i2 h2 b hb => (candScan_eq_none.mp (hmin i2 h2)) b hb, hjmin, hmk⟩
    · rintro ⟨i, hi, j, hj, hcp, hmin2, hjmin, hmk⟩
      exact ⟨i, hi, candScan_eq_some.mpr ⟨j, hj, hcp, hjmin, hmk⟩,
        fun k hk => candScan_eq_none.mpr (hmin2 k hk)⟩
  · rw [findFirstConflict_eq_firstHit, findFirstConflict_eq_firstHit,
      ← candScan_filter]
    exact firstHit_filter (fun a ha => candScan_of_invalid ha) cand
  · rw [findConflict_eq_firstHit, firstHit_eq_none]
    constructor
    · intro h a ha b hb
      exact (candScanA_eq_none.mp (h a ha)) b hb
    · intro h a ha
      exact candScanA_eq_none.mpr (h a ha)
  · intro r
    rw [findConflict_eq_firstHit, firstHit_eq_some emptySession]
    constructor
    · rintro ⟨i, hi, hsome, hmin⟩
      rcases candScanA_eq_some.mp hsome with ⟨j, hj, hcp, hjmin, hmk⟩
      exact ⟨i, hi, j, hj, hcp,
        fun i2 h2 b hb => (candScanA_eq_none.mp (hmin i2 h2)) b hb, hjmin,
        hmk⟩
    · rintro ⟨i, hi, j, hj, hcp, hmin2, hjmin, hmk⟩
      exact ⟨i, hi, candScanA_eq_some.mpr ⟨j, hj, hcp, hjmin, hmk⟩,
        fun k hk => candScanA_eq_none.mpr (hmin2 k hk)⟩
  · rw [findConflict_eq_firstHit, findConflict_eq_firstHit,
      ← candScanA_filter]
    exact firstHit_filter (fun a ha => candScanA_of_invalid ha) cand

/-! ### The schedule evaluator (`evaluateSchedule` in `App.jsx`) -/

/-- `timeToMinutes` from `App.jsx`. -/
def timeToMinutes (hhmm : String) : Option Nat :=
  match splitOnChar ':' hhmm.data with
  | h :: m :: _ =>
    match jsNum h, jsNum m with
    | some a, some b => some (a * 60 + b)
    | _, _ => none
  | _ => none

/-- `slotStartMinutes` from `App.jsx`. -/
def slotStartMinutes (slotLabel : String) : Option Nat :=
  timeToMinutes ⟨trimL ((splitOnChar '-' slotLabel.data).headD [])⟩

/-- `LATE_THRESHOLD_MINUTES = 16 * 60 + 15`. -/
def LATE_THRESHOLD_MINUTES : Nat := 16 * 60 + 15

/-- `sessionsOverlap` from `App.jsx`. -/
def sessionsOverlap (a b : Session) : Bool :=
  if normalizeDay a ≠ normalizeDay b then false
  else
    match slotRange a, slotRange b with
    | some ra, some rb => rangesOverlap ra rb
    | _, _ => false

/-- `countSessionConflicts` from `App.jsx` (every unordered pair `i < j`
that mutually overlaps). -/
def countSessionConflicts : List Session → Nat
  | [] => 0
  | a :: rest =>
    (rest.filter fun b => sessionsOverlap a b).length + countSessionConflicts rest

/-- The set of slot indices occupied on `day`, in increasing order.  The
source fills a per-day `Set` by iterating the sessions; this is that set,
described by membership (the source sorts it before use). -/
def occupiedSlots (sessions : List Session) (day : String) : List Nat :=
  (List.range TIME_SLOTS.length).filter fun i =>
    sessions.any fun s =>
      normalizeDay s = day &&
        match slotRange s with
        | some r => decide (r.start ≤ i) && decide (i < r.stop)
        | none => false

/-- Unoccupied slots strictly inside a day's active span (`evaluateSchedule`
counts indices between the first and last used slot that are not used). -/
def dayGapCount (occupied : List Nat) : Nat :=
  match occupied.head?, occupied.getLast? with
  | some f, some l =>
    ((List.range TIME_SLOTS.length).filter fun i =>
      decide (f ≤ i) && decide (i ≤ l) && !occupied.contains i).length
  | _, _ => 0

/-- `s.courseId || s.courseName`. -/
def courseKeyPart (s : Session) : String :=
  if s.courseId ≠ "" then s.courseId else s.courseName

/-- The key of the `lateSessions` set. -/
def lateKey (day : String) (s : Session) : String :=
  day ++ "|" ++ courseKeyPart s ++ "|" ++ toString s.GroupId ++ "|" ++ s.Time

/-- The distinct keys of the late-session set, in insertion order. -/
def lateSessionKeys (sessions : List Session) : List String :=
  sessions.foldl
    (fun acc s =>
      let day := normalizeDay s
      if DAYS.contains day then
        match slotRange s with
        | some r =>
          if (match (TIME_SLOTS.map slotStartMinutes).getD r.start none with
              | some m => decide (LATE_THRESHOLD_MINUTES ≤ m)
              | none => false) then
            if acc.contains (lateKey day s) then acc else acc ++ [lateKey day s]
          else acc
        | none => acc
      else acc)
    []

/-- The record returned by `evaluateSchedule`. -/
structure Score where
  activeDays : Nat
  gapSlots : Nat
  after4Sessions : Nat
  conflictCount : Nat
  scoreDays : Int
  scoreGaps : Int
  scoreLate : Int
  scoreConflict : Int
  overall : Int
  deriving Repr, DecidableEq

/-- `evaluateSchedule` from `App.jsx`.  `overall` is
`Math.round(0.34*scoreDays + 0.3*scoreGaps + 0.2*scoreLate + 0.16*scoreConflict)`
computed in double precision; every sub-score lies in a fixed residue set
(`100-18k`, `100-10k`, `100-24k`, `100-40k`, floored at 0), so the exact
weighted sum has fractional part a multiple of `1/50` and is never exactly
`1/2` away from an integer, while the floating-point error is below
`2^-40`; hence `Math.round` agrees with rounding the exact rational, which
for a nonnegative value is `(100*sum + 50) / 100` in integer division. -/
def evaluateSchedule (sessions : List Session) : Score :=
  let activeDays := (DAYS.filter fun d => !(occupiedSlots sessions d).isEmpty).length
  let gapSlots := (DAYS.map fun d => dayGapCount (occupiedSlots sessions d)).sum
  let after4Sessions := (lateSessionKeys sessions).length
  let conflictCount := countSessionConflicts sessions
  let scoreDays : Int := max 0 (100 - max 0 ((activeDays : Int) - 1) * 18)
  let scoreGaps : Int := max 0 (100 - (gapSlots : Int) * 10)
  let scoreLate : Int := max 0 (100 - (after4Sessions : Int) * 24)
  let scoreConflict : Int := max 0 (100 - (conflictCount : Int) * 40)
  let overall : Int :=
    (34 * scoreDays + 30 * scoreGaps + 20 * scoreLate + 16 * scoreConflict + 50) / 100
  ⟨activeDays, gapSlots, after4Sessions, conflictCount,
    scoreDays, scoreGaps, scoreLate, scoreConflict, overall⟩

theorem round_weighted (a b c d : Int) :
    round ((0.34 * (a : ℚ) + 0.3 * (b : ℚ) + 0.2 * (c : ℚ) + 0.16 * (d : ℚ))) =
      (34 * a + 30 * b + 20 * c + 16 * d + 50) / 100 := by
  rw [round_eq]
  have h : (0.34 * (a : ℚ) + 0.3 * (b : ℚ) + 0.2 * (c : ℚ) + 0.16 * (d : ℚ)) + 1 / 2 =
      ((34 * a + 30 * b + 20 * c + 16 * d + 50 : ℤ) : ℚ) / ((100 : ℕ) : ℚ) := by
    push_cast
    ring_nf
  rw [h, Rat.floor_intCast_div_natCast]
  norm_num

/-- C4: the evaluator's sub-scores follow the documented clamped formulas,
its overall score is the weighted rounding of the sub-scores, and the empty
session set scores `activeDays = gapSlots = lateSessions = conflictCount = 0`
with `overall = 100`. -/
theorem claim_C4 :
    (∀ sessions : List Session,
      (evaluateSchedule sessions).scoreDays =
        max 0 (100 - 18 * max 0 (((evaluateSchedule sessions).activeDays : Int) - 1)) ∧
      (evaluateSchedule sessions).scoreGaps =
        max 0 (100 - 10 * ((evaluateSchedule sessions).gapSlots : Int)) ∧
      (evaluateSchedule sessions).scoreLate =
        max 0 (100 - 24 * ((evaluateSchedule sessions).after4Sessions : Int)) ∧
      (evaluateSchedule sessions).scoreConflict =
        max 0 (100 - 40 * ((evaluateSchedule sessions).conflictCount : Int)) ∧
      (evaluateSchedule sessions).overall =
        round ((0.34 * ((evaluateSchedule sessions).scoreDays : ℚ) +
          0.3 * ((evaluateSchedule sessions).scoreGaps : ℚ) +
          0.2 * ((evaluateSchedule sessions).scoreLate : ℚ) +
          0.16 * ((evaluateSchedule sessions).scoreConflict : ℚ)))) ∧
    evaluateSchedule [] = ⟨0, 0, 0, 0, 100, 100, 100, 100, 100⟩ := by
  constructor
  · intro sessions
    refine ⟨by rw [Int.mul_comm]; rfl, by rw [Int.mul_comm]; rfl,
      by rw [Int.mul_comm]; rfl, by rw [Int.mul_comm]; rfl, ?_⟩
    rw [round_weighted]
    rfl
  · decide

/-! ### The track merger (`buildMergedTrackOptions` in `App.jsx`) -/

/-- `[A-Za-z]`. -/
def isAsciiLetter (c : Char) : Bool :=
  ('A' ≤ c && c ≤ 'Z') || ('a' ≤ c && c ≤ 'z')

def upperL (s : List Char) : List Char := s.map Char.toUpper

/-- `extractSectionPrefix`: the leading letters of the trimmed name,
upper-cased; the empty string when the name does not start with a letter. -/
def extractSectionPrefix (groupName : String) : String :=
  let v := trimL groupName.data
  let letters := v.takeWhile isAsciiLetter
  if letters.isEmpty then "" else ⟨upperL letters⟩

/-- The result of `parseSectionGroupName` (the regex
`^([A-Za-z]+)\s*(\d+)$` on the trimmed name). -/
structure ParsedName where
  raw : String
  upper : String
  pfx : String
  number : Nat
  deriving Repr, DecidableEq

/-- `parseSectionGroupName` from `App.jsx`.  The regex decomposes the
trimmed value uniquely into a letters run, a whitespace run and a digits
run reaching the end (the three character classes are disjoint). -/
def parseSectionGroupName (groupName : String) : Option ParsedName :=
  let v := trimL groupName.data
  let letters := v.takeWhile isAsciiLetter
  let rest := v.dropWhile isAsciiLetter
  let digits := rest.dropWhile jsWhitespace
  if letters.isEmpty || !(rest.takeWhile jsWhitespace).all jsWhitespace then none
  else if digits.isEmpty || !digits.all Char.isDigit then none
  else some ⟨⟨v⟩, ⟨upperL v⟩, ⟨upperL letters⟩, digitsVal digits⟩

/-- `pairedSectionGroupNames` from `App.jsx` (pair start may be `-1` in
JavaScript when the number is `0`, hence the `Int`). -/
def pairedSectionGroupNames (groupName : String) : List String :=
  match parseSectionGroupName groupName with
  | none =>
    let single : String := ⟨upperL (trimL groupName.data)⟩
    if single = "" then [] else [single]
  | some parsed =>
    let pairStart : Int :=
      if parsed.number % 2 = 0 then (parsed.number : Int) - 1 else (parsed.number : Int)
    [parsed.pfx ++ toString pairStart, parsed.pfx ++ toString (pairStart + 1)]

/-- `pairedSectionLabel` from `App.jsx`. -/
def pairedSectionLabel (groupName : String) : String :=
  match pairedSectionGroupNames groupName with
  | [] => strTrim groupName
  | pair => String.intercalate "/" pair

/-- A track option produced by the merger (field `prefix` of the source is
`pfx` here, `prefix` being reserved). -/
structure TrackOption where
  id : String
  label : String
  pfx : String
  sections : List String
  isModified : Bool
  mode : String
  baseTrackId : String := ""
  deriving Repr, DecidableEq

/-- Association list with JavaScript `Map.set` semantics: replacing an
existing key keeps its position, a new key is appended. -/
def assocSet {κ ν : Type} [DecidableEq κ] : List (κ × ν) → κ → ν → List (κ × ν)
  | [], k, v => [(k, v)]
  | (k0, v0) :: rest, k, v =>
    if k0 = k then (k, v) :: rest else (k0, v0) :: assocSet rest k v

/-- `Map.get`. -/
def assocGet? {κ ν : Type} [DecidableEq κ] : List (κ × ν) → κ → Option ν
  | [], _ => none
  | (k0, v) :: rest, k => if k0 = k then some v else assocGet? rest k

/-- `byNumber.get(i)` where the loop index is an `Int` (so that the
JavaScript lookup at `-1` is `undefined`). -/
def intGet (m : List (Nat × String)) (i : Int) : Option String :=
  (m.find? fun p => ((p.1 : Nat) : Int) = i).map (·.2)

/-- `n % 2 === 0 ? n - 1 : n` over JavaScript numbers. -/
def oddAlign (n : Nat) : Int :=
  if n % 2 = 0 then (n : Int) - 1 else (n : Int)

/-- `[byNumber.get(pairStart), byNumber.get(pairStart+1)].filter(Boolean)`. -/
def pairSections (inner : List (Nat × String)) (ps : Int) : List String :=
  ([intGet inner ps, intGet inner (ps + 1)]).filterMap id

/-- The option pushed for one pair start. -/
def mkPairOption (pfx : String) (inner : List (Nat × String)) (ps : Int) :
    TrackOption :=
  let sections := pairSections inner ps
  let label :=
    if sections.length = 2
    then pfx ++ toString ps ++ "/" ++ pfx ++ toString (ps + 1)
    else sections.headD ""
  ⟨"regular-" ++ label, label, pfx, sections, false, "regular", ""⟩

/-- The per-prefix pairing loop of `buildMergedTrackOptions` (`seenStarts`
is threaded explicitly). -/
def pairLoop (pfx : String) (inner : List (Nat × String)) :
    List Nat → List Int → List TrackOption
  | [], _ => []
  | n :: rest, seen =>
    let ps := oddAlign n
    if seen.contains ps then pairLoop pfx inner rest seen
    else if (pairSections inner ps).isEmpty then pairLoop pfx inner rest (seen ++ [ps])
    else mkPairOption pfx inner ps :: pairLoop pfx inner rest (seen ++ [ps])

/-- One `byPrefix` update of the first loop of `buildMergedTrackOptions`. -/
def byPrefixStep (m : List (String × List (Nat × String))) (item : ParsedName) :
    List (String × List (Nat × String)) :=
  assocSet m item.pfx (assocSet ((assocGet? m item.pfx).getD []) item.number item.raw)

/-- Alternating digit-run / character tokens of a label.  This models
`localeCompare(..., {numeric: true})` on the ASCII section labels this
catalog produces: digit runs compare by value, everything else by
character. -/
def tokenizeAux : List Char → Option Nat → List (Nat ⊕ Char)
  | [], none => []
  | [], some n => [Sum.inl n]
  | c :: cs, acc =>
    if c.isDigit then
      tokenizeAux cs (some ((acc.getD 0) * 10 + (c.toNat - 48)))
    else
      match acc with
      | some n => Sum.inl n :: Sum.inr c :: tokenizeAux cs none
      | none => Sum.inr c :: tokenizeAux cs none

def tokenize (s : List Char) : List (Nat ⊕ Char) := tokenizeAux s none

/-- Lexicographic order on token lists: numbers before characters, numbers
by value, characters by code point. -/
def tokLE : List (Nat ⊕ Char) → List (Nat ⊕ Char) → Bool
  | [], _ => true
  | _ :: _, [] => false
  | Sum.inl m :: xs, Sum.inl n :: ys =>
    if m = n then tokLE xs ys else decide (m < n)
  | Sum.inl _ :: _, Sum.inr _ :: _ => true
  | Sum.inr _ :: _, Sum.inl _ :: _ => false
  | Sum.inr a :: xs, Sum.inr b :: ys =>
    if a = b then tokLE xs ys else decide (a < b)

/-- The numeric-collation order used for `.sort(localeCompare, numeric)`. -/
def strTokLE (a b : String) : Prop := tokLE (tokenize a.data) (tokenize b.data) = true

instance : DecidableRel strTokLE := fun a b =>
  inferInstanceAs (Decidable (tokLE (tokenize a.data) (tokenize b.data) = true))

/-- Label order on track options. -/
def trackLE (a b : TrackOption) : Prop := strTokLE a.label b.label

instance : DecidableRel trackLE := fun a b =>
  inferInstanceAs
    (Decidable (tokLE (tokenize a.label.data) (tokenize b.label.data) = true))

/-- The unmatched-name loop of `buildMergedTrackOptions`. -/
def unmatchedOptions (unmatched : List String) : List TrackOption :=
  (List.insertionSort strTokLE unmatched).filterMap fun name =>
    if extractSectionPrefix name = "" then none
    else some ⟨"regular-" ++ name, name, extractSectionPrefix name, [name],
      false, "regular", ""⟩

/-- `buildMergedTrackOptions` from `App.jsx`. -/
def buildMergedTrackOptions (subgroupNames : List String) : List TrackOption :=
  let parsed := subgroupNames.filterMap parseSectionGroupName
  let byPrefix := parsed.foldl byPrefixStep []
  let unmatched := subgroupNames.filter fun nm => (parseSectionGroupName nm).isNone
  let pairOptions :=
    (byPrefix.map fun e =>
      pairLoop e.1 e.2 (List.insertionSort (· ≤ ·) (e.2.map (·.1))) []).flatten
  List.insertionSort trackLE (pairOptions ++ unmatchedOptions unmatched)

theorem tokLE_trans : ∀ xs ys zs : List (Nat ⊕ Char),
    tokLE xs ys = true → tokLE ys zs = true → tokLE xs zs = true
  | [], _, _, _, _ => rfl
  | _ :: _, [], _, h1, _ => by simp [tokLE] at h1
  | _ :: _, Sum.inl _ :: _, [], _, h2 => by simp [tokLE] at h2
  | _ :: _, Sum.inr _ :: _, [], _, h2 => by simp [tokLE] at h2
  | Sum.inl m :: xs, Sum.inl n :: ys, Sum.inl k :: zs, h1, h2 => by
    simp only [tokLE] at h1 h2 ⊢
    by_cases hmn : m = n
    · subst hmn
      rw [if_pos rfl] at h1
      by_cases hmk : m = k
      · subst hmk
        rw [if_pos rfl] at h2 ⊢
        exact tokLE_trans _ _ _ h1 h2
      · rw [if_neg hmk] at h2 ⊢
        exact h2
    · rw [if_neg hmn] at h1
      have h1' : m < n := of_decide_eq_true h1
      by_cases hnk : n = k
      · subst hnk
        rw [if_neg hmn]
        exact h1
      · rw [if_neg hnk] at h2
        have h2' : n < k := of_decide_eq_true h2
        have hmk : m ≠ k := by omega
        rw [if_neg hmk]
        exact decide_eq_true (by omega)
  | Sum.inl _ :: _, Sum.inl _ :: _, Sum.inr _ :: _, _, _ => rfl
  | Sum.inl _ :: _, Sum.inr _ :: _, Sum.inl _ :: _, _, h2 => by cases h2
  | Sum.inl _ :: _, Sum.inr _ :: _, Sum.inr _ :: _, _, _ => rfl
  | Sum.inr _ :: _, Sum.inl _ :: _, _, h1, _ => by cases h1
  | Sum.inr _ :: _, Sum.inr _ :: _, Sum.inl _ :: _, _, h2 => by cases h2
  | Sum.inr a :: xs, Sum.inr b :: ys, Sum.inr c :: zs, h1, h2 => by
    simp only [tokLE] at h1 h2 ⊢
    by_cases hab : a = b
    · subst hab
      rw [if_pos rfl] at h1
      by_cases hac : a = c
      · subst hac
        rw [if_pos rfl] at h2 ⊢
        exact tokLE_trans _ _ _ h1 h2
      · rw [if_neg hac] at h2 ⊢
        exact h2
    · rw [if_neg hab] at h1
      have h1' : a < b := of_decide_eq_true h1
      by_cases hbc : b = c
      · subst hbc
        rw [if_neg hab]
        exact h1
      · rw [if_neg hbc] at h2
        have h2' : b < c := of_decide_eq_true h2
        have hac : a ≠ c := ne_of_lt (lt_trans h1' h2')
        rw [if_neg hac]
        exact decide_eq_true (lt_trans h1' h2')

theorem tokLE_total : ∀ xs ys : List (Nat ⊕ Char),
    tokLE xs ys = true ∨ tokLE ys xs = true
  | [], _ => Or.inl rfl
  | _ :: _, [] => Or.inr rfl
  | Sum.inl m :: xs, Sum.inl n :: ys => by
    simp only [tokLE]
    by_cases hmn : m = n
    · subst hmn
      rw [if_pos rfl, if_pos rfl]
      exact tokLE_total xs ys
    · rw [if_neg hmn, if_neg (Ne.symm hmn)]
      rcases Nat.lt_or_ge m n with h | h
      · exact Or.inl (decide_eq_true h)
      · exact Or.inr (decide_eq_true (by omega))
  | Sum.inl _ :: _, Sum.inr _ :: _ => Or.inl rfl
  | Sum.inr _ :: _, Sum.inl _ :: _ => Or.inr rfl
  | Sum.inr a :: xs, Sum.inr b :: ys => by
    simp only [tokLE]
    by_cases hab : a = b
    · subst hab
      rw [if_pos rfl, if_pos rfl]
      exact tokLE_total xs ys
    · rw [if_neg hab, if_neg (Ne.symm hab)]
      rcases lt_or_gt_of_ne hab with h | h
      · exact Or.inl (decide_eq_true h)
      · exact Or.inr (decide_eq_true h)

instance : IsTrans TrackOption trackLE :=
  ⟨fun _ _ _ h1 h2 => tokLE_trans _ _ _ h1 h2⟩

instance : IsTotal TrackOption trackLE :=
  ⟨fun a b => tokLE_total (tokenize a.label.data) (tokenize b.label.data)⟩

/-- The merger's output is sorted by label in the numeric collation. -/
theorem buildMergedTrackOptions_sorted (names : List String) :
    List.Pairwise trackLE (buildMergedTrackOptions names) :=
  List.sorted_insertionSort trackLE _

section AssocLemmas

variable {κ ν : Type} [DecidableEq κ]

theorem assocGet?_set_same (m : List (κ × ν)) (k : κ) (v : ν) :
    assocGet? (assocSet m k v) k = some v := by
  induction m with
  | nil => simp [assocSet, assocGet?]
  | cons p rest ih =>
    rcases p with ⟨k0, v0⟩
    by_cases h : k0 = k
    · simp [assocSet, h, assocGet?]
    · simp [assocSet, h, assocGet?, ih]

theorem assocGet?_set_other (m : List (κ × ν)) (k k' : κ) (v : ν) (h : k' ≠ k) :
    assocGet? (assocSet m k v) k' = assocGet? m k' := by
  induction m with
  | nil =>
    simp only [assocSet, assocGet?]
    rw [if_neg (fun he => h he.symm)]
  | cons p rest ih =>
    rcases p with ⟨k0, v0⟩
    by_cases h0 : k0 = k
    · subst h0
      simp only [assocSet, if_pos rfl, assocGet?]
      rw [if_neg (fun he => h he.symm), if_neg (fun he => h he.symm)]
    · simp only [assocSet, if_neg h0, assocGet?]
      by_cases h1 : k0 = k'
      · rw [if_pos h1, if_pos h1]
      · rw [if_neg h1, if_neg h1]
        exact ih

theorem mem_keys_assocSet {m : List (κ × ν)} {k k' : κ} {v : ν} :
    k' ∈ (assocSet m k v).map Prod.fst ↔ k' = k ∨ k' ∈ m.map Prod.fst := by
  induction m with
  | nil => simp [assocSet]
  | cons p rest ih =>
    rcases p with ⟨k0, v0⟩
    rw [assocSet]
    by_cases h : k0 = k
    · subst h
      rw [if_pos rfl]
      simp only [List.map_cons, List.mem_cons]
      tauto
    · rw [if_neg h]
      simp only [List.map_cons, List.mem_cons, ih]
      tauto

theorem nodup_keys_assocSet {m : List (κ × ν)} {k : κ} {v : ν}
    (h : (m.map Prod.fst).Nodup) : ((assocSet m k v).map Prod.fst).Nodup := by
  induction m with
  | nil => simp [assocSet]
  | cons p rest ih =>
    rcases p with ⟨k0, v0⟩
    simp only [List.map_cons, List.nodup_cons] at h
    rw [assocSet]
    by_cases h0 : k0 = k
    · subst h0
      rw [if_pos rfl]
      simp only [List.map_cons, List.nodup_cons]
      exact h
    · rw [if_neg h0]
      simp only [List.map_cons, List.nodup_cons]
      refine ⟨?_, ih h.2⟩
      rw [mem_keys_assocSet]
      rintro (rfl | hmem)
      · exact h0 rfl
      · exact h.1 hmem

theorem assocGet?_eq_some_of_mem {m : List (κ × ν)} {e : κ × ν}
    (h : (m.map Prod.fst).Nodup) (he : e ∈ m) : assocGet? m e.1 = some e.2 := by
  induction m with
  | nil => cases he
  | cons p rest ih =>
    simp only [List.map_cons, List.nodup_cons] at h
    rcases List.mem_cons.mp he with rfl | hmem
    · simp [assocGet?]
    · have hne : p.1 ≠ e.1 := by
        intro hcontra
        exact h.1 (hcontra ▸ List.mem_map.mpr ⟨e, hmem, rfl⟩)
      rcases p with ⟨k0, v0⟩
      simp only [assocGet?]
      rw [if_neg hne]
      exact ih h.2 hmem

theorem mem_of_assocGet? {m : List (κ × ν)} {k : κ} {v : ν}
    (h : assocGet? m k = some v) : (k, v) ∈ m := by
  induction m with
  | nil => cases h
  | cons p rest ih =>
    rcases p with ⟨k0, v0⟩
    simp only [assocGet?] at h
    by_cases h0 : k0 = k
    · rw [if_pos h0] at h
      subst h0
      cases h
      exact List.mem_cons_self _ _
    · rw [if_neg h0] at h
      exact List.mem_cons_of_mem _ (ih h)

end AssocLemmas

/-- The raw stored in `byPrefix` under prefix `P` and number `n`. -/
def lookup2 (m : List (String × List (Nat × String))) (P : String) (n : Nat) :
    Option String :=
  assocGet? ((assocGet? m P).getD []) n

theorem lookup2_step (m : List (String × List (Nat × String)))
    (it : ParsedName) (P : String) (n : Nat) :
    lookup2 (byPrefixStep m it) P n =
      if it.pfx = P ∧ it.number = n then some it.raw else lookup2 m P n := by
  unfold byPrefixStep lookup2
  by_cases hP : it.pfx = P
  · subst hP
    rw [assocGet?_set_same]
    simp only [Option.getD_some]
    by_cases hn : it.number = n
    · subst hn
      rw [assocGet?_set_same]
      simp
    · rw [assocGet?_set_other _ _ _ _ (fun he => hn he.symm),
        if_neg (fun hc => hn hc.2)]
  · rw [assocGet?_set_other _ _ _ _ (fun he => hP he.symm),
      if_neg (fun hc => hP hc.1)]

theorem lookup2_foldl (l : List ParsedName)
    (m : List (String × List (Nat × String))) (P : String) (n : Nat) :
    lookup2 (l.foldl byPrefixStep m) P n =
      l.foldl
        (fun acc it => if it.pfx = P ∧ it.number = n then some it.raw else acc)
        (lookup2 m P n) := by
  induction l generalizing m with
  | nil => rfl
  | cons it rest ih =>
    rw [List.foldl_cons, List.foldl_cons, ih, lookup2_step]

theorem lastWrite_some {α : Type} {pred : α → Prop} [DecidablePred pred]
    {raw : α → String} {l : List α} {init : Option String} {r : String}
    (h : l.foldl (fun acc it => if pred it then some (raw it) else acc) init =
      some r) :
    (∃ it ∈ l, pred it ∧ raw it = r) ∨ init = some r := by
  induction l generalizing init with
  | nil => exact Or.inr h
  | cons it rest ih =>
    rw [List.foldl_cons] at h
    rcases ih h with ⟨it2, hmem, hp, hr⟩ | hinit
    · exact Or.inl ⟨it2, List.mem_cons_of_mem _ hmem, hp, hr⟩
    · by_cases hpred : pred it
      · rw [if_pos hpred] at hinit
        exact Or.inl ⟨it, List.mem_cons_self _ _, hpred, Option.some_inj.mp hinit⟩
      · rw [if_neg hpred] at hinit
        exact Or.inr hinit

theorem foldl_if_some {α : Type} {pred : α → Prop} [DecidablePred pred]
    {raw : α → String} (l : List α) (r0 : String) :
    ∃ r, l.foldl (fun acc it => if pred it then some (raw it) else acc)
      (some r0) = some r := by
  induction l generalizing r0 with
  | nil => exact ⟨r0, rfl⟩
  | cons it rest ih =>
    rw [List.foldl_cons]
    by_cases hp : pred it
    · rw [if_pos hp]
      exact ih (raw it)
    · rw [if_neg hp]
      exact ih r0

theorem lastWrite_isSome {α : Type} {pred : α → Prop} [DecidablePred pred]
    {raw : α → String} {l : List α} {init : Option String} {it : α}
    (hmem : it ∈ l) (hp : pred it) :
    ∃ r, l.foldl (fun acc it => if pred it then some (raw it) else acc) init =
      some r := by
  induction l generalizing init with
  | nil => cases hmem
  | cons it0 rest ih =>
    rw [List.foldl_cons]
    rcases List.mem_cons.mp hmem with rfl | hmem2
    · rw [if_pos hp]
      exact foldl_if_some rest (raw it)
    · exact ih hmem2

/-- The number keys stored under prefix `P`. -/
def innerKeys (m : List (String × List (Nat × String))) (P : String) : List Nat :=
  ((assocGet? m P).getD []).map Prod.fst

theorem innerKeys_step (m : List (String × List (Nat × String)))
    (it : ParsedName) (P : String) (n : Nat) :
    n ∈ innerKeys (byPrefixStep m it) P ↔
      (it.pfx = P ∧ n = it.number) ∨ n ∈ innerKeys m P := by
  unfold byPrefixStep innerKeys
  by_cases hP : it.pfx = P
  · subst hP
    rw [assocGet?_set_same]
    simp only [Option.getD_some]
    rw [mem_keys_assocSet]
    tauto
  · rw [assocGet?_set_other _ _ _ _ (fun he => hP he.symm)]
    simp [hP]

theorem innerKeys_foldl (l : List ParsedName)
    (m : List (String × List (Nat × String))) (P : String) (n : Nat) :
    n ∈ innerKeys (l.foldl byPrefixStep m) P ↔
      (∃ it ∈ l, it.pfx = P ∧ it.number = n) ∨ n ∈ innerKeys m P := by
  induction l generalizing m with
  | nil => simp
  | cons it rest ih =>
    rw [List.foldl_cons, ih, innerKeys_step]
    constructor
    · rintro (⟨it2, h2, hp, hn⟩ | (⟨hp, hn⟩ | hm))
      · exact Or.inl ⟨it2, List.mem_cons_of_mem _ h2, hp, hn⟩
      · exact Or.inl ⟨it, List.mem_cons_self _ _, hp, hn.symm⟩
      · exact Or.inr hm
    · rintro (⟨it2, h2, hp, hn⟩ | hm)
      · rcases List.mem_cons.mp h2 with rfl | h3
        · exact Or.inr (Or.inl ⟨hp, hn.symm⟩)
        · exact Or.inl ⟨it2, h3, hp, hn⟩
      · exact Or.inr (Or.inr hm)

theorem mem_assocSet {κ ν : Type} [DecidableEq κ] {m : List (κ × ν)}
    {k : κ} {v : ν} {e : κ × ν} (h : e ∈ assocSet m k v) :
    e = (k, v) ∨ e ∈ m := by
  induction m with
  | nil => simpa [assocSet] using h
  | cons p rest ih =>
    rcases p with ⟨k0, v0⟩
    rw [assocSet] at h
    by_cases h0 : k0 = k
    · rw [if_pos h0] at h
      rcases List.mem_cons.mp h with rfl | h2
      · exact Or.inl rfl
      · exact Or.inr (List.mem_cons_of_mem _ h2)
    · rw [if_neg h0] at h
      rcases List.mem_cons.mp h with rfl | h2
      · exact Or.inr (List.mem_cons_self _ _)
      · rcases ih h2 with h3 | h3
        · exact Or.inl h3
        · exact Or.inr (List.mem_cons_of_mem _ h3)

/-- Key-uniqueness invariant of `byPrefix` and its inner maps. -/
def goodMap (m : List (String × List (Nat × String))) : Prop :=
  (m.map Prod.fst).Nodup ∧ ∀ e ∈ m, (e.2.map Prod.fst).Nodup

theorem goodMap_step {m : List (String × List (Nat × String))}
    (h : goodMap m) (it : ParsedName) : goodMap (byPrefixStep m it) := by
  unfold byPrefixStep
  refine ⟨nodup_keys_assocSet h.1, ?_⟩
  intro e he
  rcases mem_assocSet he with rfl | hmem
  · cases hv : assocGet? m it.pfx with
    | none => simp [hv, assocSet]
    | some inner =>
      have hin : (inner.map Prod.fst).Nodup :=
        h.2 _ (mem_of_assocGet? hv)
      simp only [hv, Option.getD_some]
      exact nodup_keys_assocSet hin
  · exact h.2 e hmem

theorem goodMap_foldl (l : List ParsedName) :
    goodMap (l.foldl byPrefixStep []) := by
  have h : ∀ m, goodMap m → goodMap (l.foldl byPrefixStep m) := by
    induction l with
    | nil => exact fun m hm => hm
    | cons it rest ih =>
      intro m hm
      exact ih _ (goodMap_step hm it)
  exact h [] ⟨List.nodup_nil, by simp⟩

theorem dropWhile_idem {p : Char → Bool} (l : List Char) :
    (l.dropWhile p).dropWhile p = l.dropWhile p := by
  cases h : l.dropWhile p with
  | nil => rfl
  | cons x xs =>
    have hx : p x = false := by
      have h2 := List.head?_dropWhile_not p l
      rw [h] at h2
      exact h2
    rw [List.dropWhile_cons_of_neg (by simp [hx])]

theorem dropWhile_eq_self_of_head {p : Char → Bool} {l : List Char}
    (h : ∀ x ∈ l.head?, p x = false) : l.dropWhile p = l := by
  cases l with
  | nil => rfl
  | cons x xs =>
    have hx := h x (by simp)
    rw [List.dropWhile_cons_of_neg (by simp [hx])]

theorem trimL_idem (s : List Char) : trimL (trimL s) = trimL s := by
  unfold trimL
  have h1 : ((((s.dropWhile jsWhitespace).reverse.dropWhile
      jsWhitespace).reverse).dropWhile jsWhitespace) =
      ((s.dropWhile jsWhitespace).reverse.dropWhile jsWhitespace).reverse := by
    apply dropWhile_eq_self_of_head
    intro x hx
    rw [List.head?_reverse] at hx
    have hsuf := List.dropWhile_suffix (l := (s.dropWhile jsWhitespace).reverse)
      jsWhitespace
    rcases hsuf with ⟨t, ht⟩
    cases hB : ((s.dropWhile jsWhitespace).reverse.dropWhile jsWhitespace) with
    | nil =>
      rw [hB] at hx
      cases hx
    | cons b bs =>
      rw [hB] at hx ht
      have hlast : (t ++ b :: bs).getLast? = (b :: bs).getLast? := by
        rw [List.getLast?_append]
        cases hz : (b :: bs).getLast? with
        | none => simp at hz
        | some z => simp [hz, Option.or]
      rw [ht] at hlast
      rw [List.getLast?_reverse] at hlast
      rw [← hlast] at hx
      have hhead := List.head?_dropWhile_not jsWhitespace s
      cases hh : (s.dropWhile jsWhitespace).head? with
      | none =>
        rw [hh] at hx
        cases hx
      | some y =>
        rw [hh] at hhead hx
        cases hx
        exact hhead
  rw [h1, List.reverse_reverse, dropWhile_idem]

/-- Parsing is stable on the stored trimmed raw: if a name parses, its
`raw` parses to the same record. -/
theorem parse_raw {nm : String} {p : ParsedName}
    (h : parseSectionGroupName nm = some p) :
    parseSectionGroupName p.raw = some p := by
  unfold parseSectionGroupName at h ⊢
  by_cases h1 : (trimL nm.data).takeWhile isAsciiLetter |>.isEmpty
  · rw [if_pos (by simp [h1])] at h
    cases h
  · by_cases h1b : !((trimL nm.data).dropWhile isAsciiLetter |>.takeWhile
        jsWhitespace).all jsWhitespace
    · rw [if_pos (by simp_all)] at h
      cases h
    · rw [if_neg (by simp_all)] at h
      by_cases h2 : ((trimL nm.data).dropWhile isAsciiLetter |>.dropWhile
          jsWhitespace).isEmpty ||
          !((trimL nm.data).dropWhile isAsciiLetter |>.dropWhile
            jsWhitespace).all Char.isDigit
      · rw [if_pos h2] at h
        cases h
      · rw [if_neg h2] at h
        have hraw : p.raw = (⟨trimL nm.data⟩ : String) := by
          cases h
          rfl
        rw [hraw]
        have htrim : trimL (String.mk (trimL nm.data)).data = trimL nm.data := by
          simpa using trimL_idem nm.data
        rw [htrim]
        rw [if_neg (by simp_all), if_neg h2]
        rw [← h]

theorem assocGet?_isSome_of_mem_keys {κ ν : Type} [DecidableEq κ]
    {m : List (κ × ν)} {k : κ} (h : k ∈ m.map Prod.fst) :
    ∃ v, assocGet? m k = some v := by
  induction m with
  | nil => cases h
  | cons p rest ih =>
    rcases p with ⟨k0, v0⟩
    simp only [List.map_cons, List.mem_cons] at h
    unfold assocGet?
    by_cases h0 : k0 = k
    · exact ⟨v0, by rw [if_pos h0]⟩
    · rcases h with rfl | h2
      · exact absurd rfl h0
      · rw [if_neg h0]
        exact ih h2

theorem intGet_natCast (inner : List (Nat × String)) (n : Nat) :
    intGet inner ((n : Nat) : Int) = assocGet? inner n := by
  induction inner with
  | nil => rfl
  | cons p rest ih =>
    rcases p with ⟨k, r⟩
    unfold intGet at ih ⊢
    rw [List.find?_cons]
    by_cases h : k = n
    · subst h
      simp [assocGet?]
    · have h2 : (decide (((k : Nat) : Int) = ((n : Nat) : Int))) = false := by
        simp only [decide_eq_false_iff_not]
        exact_mod_cast h
      rw [h2]
      dsimp only
      simp only [assocGet?]
      rw [if_neg h]
      exact ih

theorem intGet_eq_some {inner : List (Nat × String)} {i : Int} {r : String}
    (h : intGet inner i = some r) :
    ∃ k, (k, r) ∈ inner ∧ ((k : Nat) : Int) = i := by
  unfold intGet at h
  rcases Option.map_eq_some'.mp h with ⟨p, hp, hr⟩
  have hmem := List.mem_of_find?_eq_some hp
  have hpred := List.find?_some hp
  refine ⟨p.1, ?_, ?_⟩
  · have hp2 : (p.1, p.2) ∈ inner := by simpa using hmem
    rw [hr] at hp2
    exact hp2
  · simpa using hpred

theorem mem_pairSections {inner : List (Nat × String)} {ps : Int} {r : String} :
    r ∈ pairSections inner ps ↔
      intGet inner ps = some r ∨ intGet inner (ps + 1) = some r := by
  unfold pairSections
  cases h1 : intGet inner ps <;> cases h2 : intGet inner (ps + 1) <;>
    simp [List.filterMap, eq_comm]

theorem oddAlign_odd (n : Nat) : oddAlign n % 2 = 1 := by
  unfold oddAlign
  rcases Nat.mod_two_eq_zero_or_one n with h | h
  · rw [if_pos h]
    omega
  · rw [if_neg (by omega)]
    omega

theorem pairLoop_spec (pfx : String) (inner : List (Nat × String)) :
    ∀ (nums : List Nat) (seen : List Int),
      ∃ psl : List Int,
        pairLoop pfx inner nums seen = psl.map (mkPairOption pfx inner) ∧
        psl.Nodup ∧
        ∀ ps ∈ psl, ps ∉ seen ∧ pairSections inner ps ≠ [] ∧
          ∃ n ∈ nums, ps = oddAlign n := by
  intro nums
  induction nums with
  | nil => exact fun seen => ⟨[], rfl, List.nodup_nil, by simp⟩
  | cons n rest ih =>
    intro seen
    rw [pairLoop]
    by_cases hc : seen.contains (oddAlign n)
    · rw [if_pos hc]
      rcases ih seen with ⟨psl, heq, hnd, hall⟩
      refine ⟨psl, heq, hnd, fun ps hps => ?_⟩
      rcases hall ps hps with ⟨h1, h2, n2, hn2, he⟩
      exact ⟨h1, h2, n2, List.mem_cons_of_mem _ hn2, he⟩
    · rw [if_neg hc]
      rcases ih (seen ++ [oddAlign n]) with ⟨psl, heq, hnd, hall⟩
      by_cases hemp : (pairSections inner (oddAlign n)).isEmpty
      · rw [if_pos hemp]
        refine ⟨psl, heq, hnd, fun ps hps => ?_⟩
        rcases hall ps hps with ⟨h1, h2, n2, hn2, he⟩
        refine ⟨fun hmem => h1 (List.mem_append_left _ hmem), h2,
          n2, List.mem_cons_of_mem _ hn2, he⟩
      · rw [if_neg hemp]
        refine ⟨oddAlign n :: psl, by rw [heq, List.map_cons], ?_, ?_⟩
        · rw [List.nodup_cons]
          refine ⟨fun hmem => ?_, hnd⟩
          exact (hall _ hmem).1 (List.mem_append_right _ (by simp))
        · intro ps hps
          rcases List.mem_cons.mp hps with rfl | hps2
          · refine ⟨fun hmem => hc (by simpa using hmem), ?_,
              n, List.mem_cons_self _ _, rfl⟩
            intro hnil
            rw [hnil] at hemp
            exact hemp rfl
          · rcases hall ps hps2 with ⟨h1, h2, n2, hn2, he⟩
            exact ⟨fun hmem => h1 (List.mem_append_left _ hmem), h2,
              n2, List.mem_cons_of_mem _ hn2, he⟩

theorem pairLoop_mem (pfx : String) (inner : List (Nat × String)) :
    ∀ (nums : List Nat) (seen : List Int) (n : Nat),
      n ∈ nums → oddAlign n ∉ seen → pairSections inner (oddAlign n) ≠ [] →
      mkPairOption pfx inner (oddAlign n) ∈ pairLoop pfx inner nums seen := by
  intro nums
  induction nums with
  | nil => intro seen n h; cases h
  | cons n0 rest ih =>
    intro seen n hmem hseen hne
    rw [pairLoop]
    by_cases hc : seen.contains (oddAlign n0)
    · rw [if_pos hc]
      rcases List.mem_cons.mp hmem with rfl | h2
      · exact absurd (by simpa using hc) hseen
      · exact ih seen n h2 hseen hne
    · rw [if_neg hc]
      by_cases hsame : oddAlign n = oddAlign n0
      · rw [← hsame]
        rw [if_neg (by simpa using hne)]
        exact List.mem_cons_self _ _
      · have hseen2 : oddAlign n ∉ seen ++ [oddAlign n0] := by
          intro hmem2
          rcases List.mem_append.mp hmem2 with h3 | h3
          · exact hseen h3
          · exact hsame (by simpa using h3)
        rcases List.mem_cons.mp hmem with rfl | h2
        · exact absurd rfl hsame
        · by_cases hemp : (pairSections inner (oddAlign n0)).isEmpty
          · rw [if_pos hemp]
            exact ih _ n h2 hseen2 hne
          · rw [if_neg hemp]
            exact List.mem_cons_of_mem _ (ih _ n h2 hseen2 hne)

/-- The parsed names of the catalog. -/
def parsedOf (names : List String) : List ParsedName :=
  names.filterMap parseSectionGroupName

/-- The `byPrefix` map of `buildMergedTrackOptions`. -/
def byPrefixOf (names : List String) : List (String × List (Nat × String)) :=
  (parsedOf names).foldl byPrefixStep []

/-- The unmatched names. -/
def unmatchedOf (names : List String) : List String :=
  names.filter fun nm => (parseSectionGroupName nm).isNone

/-- The paired options, before sorting. -/
def pairOptionsOf (names : List String) : List TrackOption :=
  ((byPrefixOf names).map fun e =>
    pairLoop e.1 e.2 (List.insertionSort (· ≤ ·) (e.2.map Prod.fst)) []).flatten

theorem buildMergedTrackOptions_eq (names : List String) :
    buildMergedTrackOptions names =
      List.insertionSort trackLE
        (pairOptionsOf names ++ unmatchedOptions (unmatchedOf names)) := rfl

theorem mem_buildMerged {names : List String} {t : TrackOption} :
    t ∈ buildMergedTrackOptions names ↔
      t ∈ pairOptionsOf names ∨ t ∈ unmatchedOptions (unmatchedOf names) := by
  rw [buildMergedTrackOptions_eq,
    List.Perm.mem_iff (List.perm_insertionSort _ _), List.mem_append]

theorem mem_pairOptionsOf {names : List String} {t : TrackOption} :
    t ∈ pairOptionsOf names ↔
      ∃ e ∈ byPrefixOf names,
        t ∈ pairLoop e.1 e.2 (List.insertionSort (· ≤ ·) (e.2.map Prod.fst)) [] := by
  unfold pairOptionsOf
  rw [List.mem_flatten]
  constructor
  · rintro ⟨l, hl, ht⟩
    rcases List.mem_map.mp hl with ⟨e, he, rfl⟩
    exact ⟨e, he, ht⟩
  · rintro ⟨e, he, ht⟩
    exact ⟨_, List.mem_map.mpr ⟨e, he, rfl⟩, ht⟩

theorem mem_unmatchedOptions {l : List String} {t : TrackOption} :
    t ∈ unmatchedOptions l ↔
      ∃ name ∈ l, extractSectionPrefix name ≠ "" ∧
        t = ⟨"regular-" ++ name, name, extractSectionPrefix name, [name],
          false, "regular", ""⟩ := by
  unfold unmatchedOptions
  rw [List.mem_filterMap]
  constructor
  · rintro ⟨name, hmem, hsome⟩
    by_cases hp : extractSectionPrefix name = ""
    · rw [if_pos hp] at hsome
      cases hsome
    · rw [if_neg hp] at hsome
      exact ⟨name, (List.Perm.mem_iff (List.perm_insertionSort _ _)).mp hmem,
        hp, (Option.some_inj.mp hsome).symm⟩
  · rintro ⟨name, hmem, hp, rfl⟩
    exact ⟨name, (List.Perm.mem_iff (List.perm_insertionSort _ _)).mpr hmem,
      by rw [if_neg hp]⟩

theorem inner_entry_spec {names : List String} {P : String}
    {inner : List (Nat × String)}
    (hget : assocGet? (byPrefixOf names) P = some inner)
    {k : Nat} {r : String} (hmem : (k, r) ∈ inner) :
    ∃ nm ∈ names, ∃ q, parseSectionGroupName nm = some q ∧
      q.pfx = P ∧ q.number = k ∧ q.raw = r := by
  have hgood := goodMap_foldl (parsedOf names)
  have hninner : (inner.map Prod.fst).Nodup :=
    hgood.2 (P, inner) (mem_of_assocGet? hget)
  have hkr : assocGet? inner k = some r :=
    assocGet?_eq_some_of_mem hninner hmem
  have hl2 : lookup2 (byPrefixOf names) P k = some r := by
    unfold lookup2
    rw [hget]
    exact hkr
  unfold byPrefixOf at hl2
  rw [lookup2_foldl] at hl2
  have hinit : lookup2 [] P k = (none : Option String) := rfl
  rw [hinit] at hl2
  rcases @lastWrite_some ParsedName (fun it => it.pfx = P ∧ it.number = k) _
      ParsedName.raw (parsedOf names) none r hl2 with
    ⟨it, hit, ⟨hp1, hp2⟩, hraw⟩ | hcontra
  · rcases List.mem_filterMap.mp hit with ⟨nm, hnm, hparse⟩
    exact ⟨nm, hnm, it, hparse, hp1, hp2, hraw⟩
  · cases hcontra

theorem inner_lookup_exists {names : List String} {P : String} {k : Nat}
    (h : ∃ it ∈ parsedOf names, it.pfx = P ∧ it.number = k) :
    ∃ inner, assocGet? (byPrefixOf names) P = some inner ∧
      ∃ r, assocGet? inner k = some r := by
  have hkeys : k ∈ innerKeys (byPrefixOf names) P := by
    unfold byPrefixOf
    rw [innerKeys_foldl]
    exact Or.inl h
  unfold innerKeys at hkeys
  cases hget : assocGet? (byPrefixOf names) P with
  | none =>
    rw [hget] at hkeys
    cases hkeys
  | some inner =>
    rw [hget] at hkeys
    simp only [Option.getD_some] at hkeys
    exact ⟨inner, rfl, assocGet?_isSome_of_mem_keys hkeys⟩

/-- The (prefix, number) key a name parses to. -/
def parseKey (nm : String) : Option (String × Nat) :=
  (parseSectionGroupName nm).map fun p => (p.pfx, p.number)

/-- The injectivity hypothesis of the amended C6: distinct catalog names
never parse to the same (prefix, number).  (Stated through `parseKey` so it
is decidable.) -/
def parseInjOn (names : List String) : Prop :=
  ∀ n1 ∈ names, ∀ n2 ∈ names,
    (parseKey n1).isSome = true → parseKey n1 = parseKey n2 → n1 = n2

instance (names : List String) : Decidable (parseInjOn names) := by
  unfold parseInjOn
  infer_instance

theorem parseInjOn_elim {names : List String} (h : parseInjOn names) :
    ∀ n1 ∈ names, ∀ n2 ∈ names, ∀ p1 p2 : ParsedName,
      parseSectionGroupName n1 = some p1 → parseSectionGroupName n2 = some p2 →
      p1.pfx = p2.pfx → p1.number = p2.number → n1 = n2 := by
  intro n1 h1 n2 h2 p1 p2 e1 e2 hpfx hnum
  apply h n1 h1 n2 h2
  · unfold parseKey
    rw [e1]
    rfl
  · unfold parseKey
    rw [e1, e2]
    simp [hpfx, hnum]

theorem inner_lookup_raw {names : List String} (hinj : parseInjOn names)
    {P : String} {inner : List (Nat × String)} {k : Nat} {r : String}
    (hget : assocGet? (byPrefixOf names) P = some inner)
    (hkr : assocGet? inner k = some r)
    {nm : String} {q : ParsedName} (hnm : nm ∈ names)
    (hq : parseSectionGroupName nm = some q) (hqP : q.pfx = P)
    (hqk : q.number = k) : r = q.raw := by
  rcases inner_entry_spec hget (mem_of_assocGet? hkr) with
    ⟨nm2, hnm2, q2, hq2, hq2P, hq2k, hq2raw⟩
  have heqnm : nm2 = nm :=
    parseInjOn_elim hinj nm2 hnm2 nm hnm q2 q hq2 hq
      (by rw [hq2P, hqP]) (by rw [hq2k, hqk])
  subst heqnm
  rw [hq] at hq2
  cases hq2
  exact hq2raw.symm

theorem pairSections_of_key {inner : List (Nat × String)} {n : Nat}
    {r : String} (hkr : assocGet? inner n = some r) :
    r ∈ pairSections inner (oddAlign n) := by
  rw [mem_pairSections]
  unfold oddAlign
  by_cases h : n % 2 = 0
  · rw [if_pos h]
    right
    have he : ((n : Int) - 1) + 1 = ((n : Nat) : Int) := by ring
    rw [he, intGet_natCast]
    exact hkr
  · rw [if_neg h]
    left
    rw [intGet_natCast]
    exact hkr

theorem mkPairOption_mem {names : List String} {P : String}
    {inner : List (Nat × String)} {n : Nat}
    (hget : assocGet? (byPrefixOf names) P = some inner)
    (hne : pairSections inner (oddAlign n) ≠ [])
    (hkey : n ∈ inner.map Prod.fst) :
    mkPairOption P inner (oddAlign n) ∈ buildMergedTrackOptions names := by
  rw [mem_buildMerged]
  left
  rw [mem_pairOptionsOf]
  refine ⟨(P, inner), mem_of_assocGet? hget, ?_⟩
  apply pairLoop_mem
  · exact (List.Perm.mem_iff (List.perm_insertionSort _ _)).mpr hkey
  · simp
  · exact hne

theorem track_unique {names : List String} {t2 : TrackOption}
    {p : ParsedName} {nm : String}
    (hp : parseSectionGroupName nm = some p)
    {inner : List (Nat × String)}
    (hget : assocGet? (byPrefixOf names) p.pfx = some inner)
    (ht2 : t2 ∈ buildMergedTrackOptions names)
    (hraw : p.raw ∈ t2.sections) :
    t2 = mkPairOption p.pfx inner (oddAlign p.number) := by
  rw [mem_buildMerged] at ht2
  rcases ht2 with hpair | hunm
  · rw [mem_pairOptionsOf] at hpair
    rcases hpair with ⟨e, he, hloop⟩
    rcases pairLoop_spec e.1 e.2
        (List.insertionSort (· ≤ ·) (e.2.map Prod.fst)) [] with
      ⟨psl, heq, hnd, hall⟩
    rw [heq] at hloop
    rcases List.mem_map.mp hloop with ⟨ps2, hps2, rfl⟩
    have hsec : p.raw ∈ pairSections e.2 ps2 := hraw
    rw [mem_pairSections] at hsec
    have hget2 : assocGet? (byPrefixOf names) e.1 = some e.2 :=
      assocGet?_eq_some_of_mem (goodMap_foldl (parsedOf names)).1 he
    have hk2 : ∃ k2 : Nat, (k2, p.raw) ∈ e.2 ∧
        (((k2 : Nat) : Int) = ps2 ∨ ((k2 : Nat) : Int) = ps2 + 1) := by
      rcases hsec with h | h
      · rcases intGet_eq_some h with ⟨k2, hm, hi⟩
        exact ⟨k2, hm, Or.inl hi⟩
      · rcases intGet_eq_some h with ⟨k2, hm, hi⟩
        exact ⟨k2, hm, Or.inr hi⟩
    rcases hk2 with ⟨k2, hm2, hi2⟩
    rcases inner_entry_spec hget2 hm2 with
      ⟨nm4, hnm4, q4, hq4, hq4P, hq4k, hq4raw⟩
    have hq4p : q4 = p := by
      have h1 := parse_raw hq4
      have h2 := parse_raw hp
      rw [hq4raw] at h1
      exact Option.some_inj.mp (h1.symm.trans h2)
    subst hq4p
    have heP : e.1 = q4.pfx := hq4P.symm
    have hinner : e.2 = inner := by
      rw [heP] at hget2
      exact Option.some_inj.mp (hget2.symm.trans hget)
    have hps2odd : ps2 % 2 = 1 := by
      rcases (hall ps2 hps2).2.2 with ⟨n2, -, rfl⟩
      exact oddAlign_odd n2
    have hk2n : k2 = q4.number := hq4k.symm
    subst hk2n
    have hpsEq : ps2 = oddAlign q4.number := by
      unfold oddAlign
      rcases Nat.mod_two_eq_zero_or_one q4.number with h | h
      · rw [if_pos h]
        rcases hi2 with hi | hi
        · exfalso
          omega
        · omega
      · rw [if_neg (by omega)]
        rcases hi2 with hi | hi
        · omega
        · exfalso
          omega
    rw [heP, hinner, hpsEq]
  · rw [mem_unmatchedOptions] at hunm
    rcases hunm with ⟨name, hname, hpfx, rfl⟩
    have hname2 : p.raw = name := by simpa using hraw
    have hnone : parseSectionGroupName name = none := by
      have := List.of_mem_filter hname
      simpa using this
    rw [← hname2, parse_raw hp] at hnone
    cases hnone

/-- C6 counterexample: the claim says non-matching names are kept as
singleton tracks; the name "1A" does not match the shape, yet the merger
drops it entirely (no letter prefix), producing no track at all. -/
theorem claim_C6_counterexample :
    parseSectionGroupName "1A" = none ∧ extractSectionPrefix "1A" = "" ∧
      buildMergedTrackOptions ["1A"] = [] := by
  decide

/-- C6 (amended): provided distinct names never parse to the same
(prefix, number), the merger pairs each parsed name with its odd-aligned
partner — the track holding a parsed name contains exactly the stored raws
of numbers `oddAlign n` and `oddAlign n + 1` of its prefix, contains every
parsed partner, and is the unique track containing that name; non-matching
names are kept as singleton tracks when they begin with a letter and are
dropped otherwise; the output is ordered by label; and the catalog
`["B1","B2","B3"]` yields exactly the tracks `B1/B2` and `B3`. -/
theorem claim_C6 (names : List String) (hinj : parseInjOn names) :
    List.Pairwise trackLE (buildMergedTrackOptions names) ∧
    buildMergedTrackOptions ["B1", "B2", "B3"] =
      [⟨"regular-B1/B2", "B1/B2", "B", ["B1", "B2"], false, "regular", ""⟩,
       ⟨"regular-B3", "B3", "B", ["B3"], false, "regular", ""⟩] ∧
    (∀ nm ∈ names, parseSectionGroupName nm = none →
      extractSectionPrefix nm ≠ "" →
      ∃ t ∈ buildMergedTrackOptions names, t.label = nm ∧ t.sections = [nm]) ∧
    (∀ nm ∈ names, parseSectionGroupName nm = none →
      extractSectionPrefix nm = "" →
      ∀ t ∈ buildMergedTrackOptions names, nm ∉ t.sections) ∧
    (∀ nm ∈ names, ∀ p : ParsedName, parseSectionGroupName nm = some p →
      ∃ t ∈ buildMergedTrackOptions names,
        p.raw ∈ t.sections ∧ t.pfx = p.pfx ∧
        (∀ s2 ∈ t.sections, ∃ nm2 ∈ names, ∃ q : ParsedName,
          parseSectionGroupName nm2 = some q ∧ q.pfx = p.pfx ∧
          (((q.number : Nat) : Int) = oddAlign p.number ∨
            ((q.number : Nat) : Int) = oddAlign p.number + 1) ∧ s2 = q.raw) ∧
        (∀ nm2 ∈ names, ∀ q : ParsedName, parseSectionGroupName nm2 = some q →
          q.pfx = p.pfx →
          (((q.number : Nat) : Int) = oddAlign p.number ∨
            ((q.number : Nat) : Int) = oddAlign p.number + 1) →
          q.raw ∈ t.sections) ∧
        (∀ t2 ∈ buildMergedTrackOptions names, p.raw ∈ t2.sections → t2 = t)) := by
  refine ⟨buildMergedTrackOptions_sorted names, by decide, ?_, ?_, ?_⟩
  · intro nm hnm hparse hpfx
    refine ⟨⟨"regular-" ++ nm, nm, extractSectionPrefix nm, [nm],
      false, "regular", ""⟩, ?_, rfl, rfl⟩
    rw [mem_buildMerged]
    right
    rw [mem_unmatchedOptions]
    exact ⟨nm, List.mem_filter.mpr ⟨hnm, by simp [hparse]⟩, hpfx, rfl⟩
  · intro nm hnm hparse hpfx t ht hmem
    rw [mem_buildMerged] at ht
    rcases ht with hpair | hunm
    · rw [mem_pairOptionsOf] at hpair
      rcases hpair with ⟨e, he, hloop⟩
      rcases pairLoop_spec e.1 e.2
          (List.insertionSort (· ≤ ·) (e.2.map Prod.fst)) [] with
        ⟨psl, heq, -, -⟩
      rw [heq] at hloop
      rcases List.mem_map.mp hloop with ⟨ps2, -, rfl⟩
      have hsec : nm ∈ pairSections e.2 ps2 := hmem
      rw [mem_pairSections] at hsec
      have hget2 : assocGet? (byPrefixOf names) e.1 = some e.2 :=
        assocGet?_eq_some_of_mem (goodMap_foldl (parsedOf names)).1 he
      have hk : ∃ k2 : Nat, (k2, nm) ∈ e.2 := by
        rcases hsec with h | h
        · rcases intGet_eq_some h with ⟨k2, hm, -⟩
          exact ⟨k2, hm⟩
        · rcases intGet_eq_some h with ⟨k2, hm, -⟩
          exact ⟨k2, hm⟩
      rcases hk with ⟨k2, hm2⟩
      rcases inner_entry_spec hget2 hm2 with ⟨nm4, -, q4, hq4, -, -, hq4raw⟩
      have : parseSectionGroupName nm = some q4 := by
        rw [← hq4raw]
        exact parse_raw hq4
      rw [hparse] at this
      cases this
    · rw [mem_unmatchedOptions] at hunm
      rcases hunm with ⟨name, -, hpfx2, rfl⟩
      have : nm = name := by simpa using hmem
      rw [← this] at hpfx2
      exact hpfx2 hpfx
  · intro nm hnm p hp
    have hpmem : p ∈ parsedOf names := List.mem_filterMap.mpr ⟨nm, hnm, hp⟩
    rcases inner_lookup_exists ⟨p, hpmem, rfl, rfl⟩ with ⟨im, hget, r, hkr⟩
    have hr : r = p.raw := inner_lookup_raw hinj hget hkr hnm hp rfl rfl
    subst hr
    have hsec : p.raw ∈ pairSections im (oddAlign p.number) :=
      pairSections_of_key hkr
    have hne : pairSections im (oddAlign p.number) ≠ [] := by
      intro h0
      rw [h0] at hsec
      cases hsec
    have hkey : p.number ∈ im.map Prod.fst :=
      List.mem_map.mpr ⟨(p.number, p.raw), mem_of_assocGet? hkr, rfl⟩
    refine ⟨mkPairOption p.pfx im (oddAlign p.number),
      mkPairOption_mem hget hne hkey, hsec, rfl, ?_, ?_, ?_⟩
    · intro s2 hs2
      have hs2b : s2 ∈ pairSections im (oddAlign p.number) := hs2
      rw [mem_pairSections] at hs2b
      have hk : ∃ k2 : Nat, (k2, s2) ∈ im ∧
          (((k2 : Nat) : Int) = oddAlign p.number ∨
            ((k2 : Nat) : Int) = oddAlign p.number + 1) := by
        rcases hs2b with h | h
        · rcases intGet_eq_some h with ⟨k2, hm, hi⟩
          exact ⟨k2, hm, Or.inl hi⟩
        · rcases intGet_eq_some h with ⟨k2, hm, hi⟩
          exact ⟨k2, hm, Or.inr hi⟩
      rcases hk with ⟨k2, hm2, hi2⟩
      rcases inner_entry_spec hget hm2 with
        ⟨nm2, hnm2, q2, hq2, hq2P, hq2k, hq2raw⟩
      exact ⟨nm2, hnm2, q2, hq2, hq2P, by rw [hq2k]; exact hi2, hq2raw.symm⟩
    · intro nm2 hnm2 q hq hqP hqnum
      have hqmem : q ∈ parsedOf names := List.mem_filterMap.mpr ⟨nm2, hnm2, hq⟩
      rcases inner_lookup_exists ⟨q, hqmem, hqP, rfl⟩ with
        ⟨im2, hget2, r2, hkr2⟩
      have him2 : im2 = im := Option.some_inj.mp (hget2.symm.trans hget)
      subst him2
      have hr2 : r2 = q.raw := inner_lookup_raw hinj hget2 hkr2 hnm2 hq hqP rfl
      subst hr2
      show q.raw ∈ pairSections im2 (oddAlign p.number)
      rw [mem_pairSections]
      rcases hqnum with h | h
      · left
        rw [← h, intGet_natCast]
        exact hkr2
      · right
        rw [← h, intGet_natCast]
        exact hkr2
    · intro t2 ht2 hraw2
      exact track_unique hp hget ht2 hraw2

/-- Witness for C6 at the concrete catalog `["B1","B2","B3"]`. -/
theorem claim_C6_witness :
    parseInjOn ["B1", "B2", "B3"] ∧
      List.Pairwise trackLE (buildMergedTrackOptions ["B1", "B2", "B3"]) :=
  ⟨by decide, (claim_C6 ["B1", "B2", "B3"] (by decide)).1⟩

/-! ### Catalog, registrations and session projection (`App.jsx`) -/

structure Course where
  id : String
  name : String
  sessions : List Session
  deriving Repr, DecidableEq

structure Registration where
  courseId : String
  selectedGroupIds : List Int
  deriving Repr, DecidableEq

/-- `new Map(courses.map(c => [c.id, c]))`. -/
def coursesById (courses : List Course) : List (String × Course) :=
  courses.foldl (fun m c => assocSet m c.id c) []

/-- `isSubgroup` / `isLecture` from `App.jsx`. -/
def isSubgroup (type : String) : Bool := strIncludes (normalizeType type) "sub"

def isLecture (type : String) : Bool := !isSubgroup type

/-- `flattenSessions` from `App.jsx`. -/
def flattenSessions (cbid : List (String × Course))
    (registrations : List Registration) : List Session :=
  registrations.foldl
    (fun all reg =>
      match assocGet? cbid reg.courseId with
      | none => all
      | some course =>
        all ++
          ((course.sessions.filter fun s =>
              reg.selectedGroupIds.contains s.GroupId).map fun s =>
            { s with
              courseId := course.id
              courseName := course.name
              source := "registered" }))
    []

/-- A group of sessions sharing a `GroupId` (`collectGroups`). -/
structure Group where
  id : Int
  name : String
  type : String
  sessions : List Session
  deriving Repr, DecidableEq

/-- `collectGroups` from `App.jsx` (insertion-ordered map by group id). -/
def collectGroups (course : Course) : List Group :=
  (course.sessions.foldl
    (fun m s =>
      match assocGet? m s.GroupId with
      | none =>
        assocSet m s.GroupId
          ⟨s.GroupId,
            if s.GroupName ≠ "" then s.GroupName
            else "Group " ++ toString s.GroupId,
            if s.«Type» ≠ "" then s.«Type» else "Group", [s]⟩
      | some g => assocSet m s.GroupId {g with sessions := g.sessions ++ [s]})
    []).map Prod.snd

/-- `v || null` over an optional numeric id (JavaScript treats `0` as
falsy). -/
def jsOrNull : Option Int → Option Int
  | some 0 => none
  | x => x

/-- `ids.join("-")`. -/
def keyOfIds (ids : List Int) : String :=
  String.intercalate "-" (ids.map toString)

structure Combo where
  key : String
  groupIds : List Int
  lectureId : Int
  sectionId : Option Int
  label : String
  deriving Repr, DecidableEq

structure AltCourse where
  courseId : String
  courseName : String
  currentKey : String
  combos : List Combo
  hasSections : Bool
  deriving Repr, DecidableEq

/-- `[currentLectureId, ...(currentSectionId ? [currentSectionId] : [])].join("-")`
(JavaScript stringifies `null` as the empty string inside `join`). -/
def currentKeyOf (lec sec : Option Int) : String :=
  let first := match lec with | some v => toString v | none => ""
  match sec with
  | some v => first ++ "-" ++ toString v
  | none => first

/-- `registeredCourseAlternatives` from `App.jsx`. -/
def registeredCourseAlternatives (courses : List Course)
    (registrations : List Registration) : List AltCourse :=
  registrations.filterMap fun reg =>
    match assocGet? (coursesById courses) reg.courseId with
    | none => none
    | some course =>
      let groups := collectGroups course
      let lectureChoices := groups.filter fun g => isLecture g.type
      let sectionChoices := groups.filter fun g => isSubgroup g.type
      if lectureChoices.isEmpty then none
      else
        let currentLectureId := jsOrNull
          (reg.selectedGroupIds.find? fun id =>
            lectureChoices.any fun g => g.id = id)
        let currentSectionId := jsOrNull
          (reg.selectedGroupIds.find? fun id =>
            sectionChoices.any fun g => g.id = id)
        let combos := lectureChoices.flatMap fun lecture =>
          if sectionChoices.isEmpty then
            [⟨keyOfIds [lecture.id], [lecture.id], lecture.id, none,
              lecture.name⟩]
          else
            sectionChoices.map fun sec =>
              ⟨keyOfIds [lecture.id, sec.id], [lecture.id, sec.id],
                lecture.id, some sec.id,
                lecture.name ++ " + " ++ pairedSectionLabel sec.name⟩
        some ⟨course.id, course.name,
          currentKeyOf currentLectureId currentSectionId, combos,
          !sectionChoices.isEmpty⟩

/-! ### The low-damage planner (`generateDamagePlans`) -/

def MAX_PLAN_SEARCH_LIMIT : Nat := 20000

/-- `damage = 1200*conflictCount + 18*gapSlots + 28*lateSessions + 4*activeDays`. -/
def damageOf (score : Score) : Int :=
  (score.conflictCount : Int) * 1200 + (score.gapSlots : Int) * 18 +
    (score.after4Sessions : Int) * 28 + (score.activeDays : Int) * 4

structure Choice where
  combo : Combo
  changeCost : Nat
  deriving Repr, DecidableEq

structure PlanCourse where
  courseId : String
  courseName : String
  currentKey : String
  combos : List Combo
  hasSections : Bool
  allowChange : Bool
  choices : List Choice
  deriving Repr, DecidableEq

/-- `from` / `to` are reserved, hence `fromLabel` / `toLabel`. -/
structure Change where
  courseId : String
  courseName : String
  fromLabel : String
  toLabel : String
  deriving Repr, DecidableEq

structure Plan where
  id : String
  changes : List Change
  changeCount : Nat
  nextRegistrations : List Registration
  score : Score
  damage : Int
  improves : Bool
  deriving Repr, DecidableEq

/-- The `coursesToPlan` projection of `generateDamagePlans`. -/
def coursesToPlanOf (alternatives : List AltCourse)
    (locks : List (String × String)) (flags : List (String × Bool)) :
    List PlanCourse :=
  alternatives.map fun item =>
    let lockKey := (assocGet? locks item.courseId).getD ""
    let lockMatch := item.combos.find? fun combo => combo.key = lockKey
    let allowChange := decide (assocGet? flags item.courseId ≠ some false)
    let filtered := match lockMatch with
      | some c => [c]
      | none => item.combos
    let choices := filtered.map fun combo =>
      (⟨combo, if combo.key = item.currentKey then 0 else 1⟩ : Choice)
    ⟨item.courseId, item.courseName, item.currentKey, item.combos,
      item.hasSections, allowChange, choices⟩

/-- The `changed` diff list computed at each complete assignment. -/
def mkChanged (coursesToPlan : List PlanCourse)
    (selected : List (String × Choice)) : List Change :=
  coursesToPlan.filterMap fun course =>
    match assocGet? selected course.courseId with
    | some nextChoice =>
      if nextChoice.combo.key = course.currentKey then none
      else
        some ⟨course.courseId, course.courseName,
          (match course.combos.find? fun c => c.key = course.currentKey with
           | some c => if c.label = "" then "Current" else c.label
           | none => "Current"),
          nextChoice.combo.label⟩
    | none => none

/-- The plan recorded at a complete assignment. -/
def mkPlan (registrations : List Registration) (cbid : List (String × Course))
    (coursesToPlan : List PlanCourse) (currentDamage : Int)
    (selected : List (String × Choice)) (poolLen : Nat) : Plan :=
  let nextRegistrations := registrations.map fun reg =>
    match assocGet? selected reg.courseId with
    | some picked => {reg with selectedGroupIds := picked.combo.groupIds}
    | none => reg
  let sessions := flattenSessions cbid nextRegistrations
  let score := evaluateSchedule sessions
  let damage := damageOf score
  let changed := mkChanged coursesToPlan selected
  ⟨"plan-" ++ toString (poolLen + 1), changed, changed.length,
    nextRegistrations, score, damage, decide (damage < currentDamage)⟩

/-- The bounded depth-first search of `generateDamagePlans`.  The mutable
`selectedChoices` Map (set before the recursive call, deleted after) is
modelled by passing the extended association list down; the two coincide
because each course id is set only at its own recursion level.  The
`for (const choice of course.choices)` loop threading the shared pool is a
left fold over the choices. -/
def dfs (registrations : List Registration) (cbid : List (String × Course))
    (coursesToPlan : List PlanCourse) (maxChanges : Nat) (currentDamage : Int) :
    List PlanCourse → List (String × Choice) → Nat → Nat × List Plan →
      Nat × List Plan
  | remaining, selected, changeCount, st =>
    if MAX_PLAN_SEARCH_LIMIT ≤ st.1 then st
    else if maxChanges < changeCount then st
    else
      match remaining with
      | [] =>
        (st.1 + 1,
          st.2 ++ [mkPlan registrations cbid coursesToPlan currentDamage
            selected st.2.length])
      | course :: rest =>
        course.choices.foldl
          (fun st2 choice =>
            if !course.allowChange && choice.combo.key ≠ course.currentKey
            then st2
            else
              dfs registrations cbid coursesToPlan maxChanges currentDamage
                rest (assocSet selected course.courseId choice)
                (changeCount + choice.changeCost) st2)
          st

/-- The ranking order of the plan pool: ascending damage, then ascending
change count, then descending overall. -/
def planLE (a b : Plan) : Prop :=
  a.damage < b.damage ∨
    (a.damage = b.damage ∧
      (a.changeCount < b.changeCount ∨
        (a.changeCount = b.changeCount ∧ b.score.overall ≤ a.score.overall)))

instance : DecidableRel planLE := fun a b => by
  unfold planLE
  infer_instance

instance : IsTotal Plan planLE := by
  refine ⟨fun a b => ?_⟩
  unfold planLE
  omega

instance : IsTrans Plan planLE := by
  refine ⟨fun a b c h1 h2 => ?_⟩
  unfold planLE at h1 h2 ⊢
  omega

/-- `generateDamagePlans` from `App.jsx`, as a function of the state it
reads. -/
def generateDamagePlans (alternatives : List AltCourse)
    (locks : List (String × String)) (flags : List (String × Bool))
    (maxChanges : Nat) (registrations : List Registration)
    (cbid : List (String × Course)) (currentDamage : Int) : List Plan :=
  if alternatives.isEmpty then []
  else
    let coursesToPlan := coursesToPlanOf alternatives locks flags
    let ordered := List.insertionSort
      (fun a b : PlanCourse => a.choices.length ≤ b.choices.length) coursesToPlan
    let result := dfs registrations cbid coursesToPlan maxChanges currentDamage
      ordered [] 0 (0, [])
    (List.insertionSort planLE result.2).take 8

/-! ### Staff preset, track overrides and the displayed table sessions -/

def FORCED_STAFF_NAME : String := "Islam Bendary"

def FORCED_STAFF_GROUPS : List String :=
  ["C1", "C2", "B5", "B6", "B1", "B2", "A5", "A6", "C3", "C4", "B7", "B8"]

def applyStaffPreset (s : Session) : Session :=
  if FORCED_STAFF_GROUPS.contains (⟨upperL (trimL s.GroupName.data)⟩ : String)
  then {s with Staff := FORCED_STAFF_NAME}
  else s

def PRESET_C1_MODIFIED_ID : String := "preset-c1-modified"

def isPresetC1ModifiedTrack : Option TrackOption → Bool
  | none => false
  | some track =>
    track.id = PRESET_C1_MODIFIED_ID || track.baseTrackId = PRESET_C1_MODIFIED_ID

/-- A session-level override patch (`{Staff, Time, DayWeekName, DayWeek}`). -/
structure Patch where
  Staff : Option String := none
  Time : Option String := none
  DayWeekName : Option String := none
  DayWeek : Option Int := none
  deriving Repr, DecidableEq

/-- `sessionKeyForTrack` from `App.jsx`. -/
def sessionKeyForTrack (courseId : String) (s : Session) : String :=
  courseId ++ "|" ++ toString s.GroupId ++ "|" ++ toString s.DayWeek ++ "|" ++
    s.IntervalId ++ "|" ++ s.NameEn

structure Adjusted where
  session : Session
  isModified : Bool
  modifiedReason : String
  key : String
  deriving Repr, DecidableEq

/-- `applyTrackSpecificAdjustments` from `App.jsx`. -/
def applyTrackSpecificAdjustments (rawSession : Session) (courseId : String)
    (track : Option TrackOption) (overrideMap : List (String × Patch)) :
    Adjusted :=
  let session0 := applyStaffPreset rawSession
  let c1Pair := pairedSectionGroupNames "C1"
  let hit :=
    isPresetC1ModifiedTrack track &&
      ((⟨lowerL courseId.data⟩ : String) = "operative") &&
      c1Pair.contains (⟨upperL (trimL session0.GroupName.data)⟩ : String) &&
      strIncludes session0.Time "12:30"
  let session1 :=
    if hit then {session0 with Time := "08:45:00 - 10:15:00"} else session0
  let key := sessionKeyForTrack courseId rawSession
  match assocGet? overrideMap key with
  | some ov =>
    ⟨{ session1 with
        Staff := ov.Staff.getD session1.Staff
        Time := ov.Time.getD session1.Time
        DayWeekName := ov.DayWeekName.getD session1.DayWeekName
        DayWeek := ov.DayWeek.getD session1.DayWeek },
      true, "Manual modify", key⟩
  | none =>
    ⟨session1, hit, if hit then "Time changed for C1 Modified" else "", key⟩

/-- The dedup key of `tableSessions`. -/
def tableKey (s : Session) : String :=
  (if s.courseId ≠ "" then s.courseId else s.courseName) ++ "|" ++
    toString s.GroupId ++ "|" ++ toString s.DayWeek ++ "|" ++ s.Time

/-- The `tableSessions` memo of `App.jsx`, as a function of the state it
reads (registered, track and preview sessions, the merged override map, and
the active-track sync inputs). -/
def tableSessions (registeredSessions globalTrackSessions previewSessions :
      List Session)
    (globalOverridesMap : List (String × Patch))
    (shouldSyncWithModified : Bool) (activeTrackOption : Option TrackOption)
    (activeTrackOverrideMap : List (String × Patch)) : List Session :=
  let all := registeredSessions ++ globalTrackSessions ++ previewSessions
  (all.foldl
    (fun (acc : List String × List Session) s =>
      let n0 := applyStaffPreset s
      let step1 :=
        if s.source ≠ "track" then
          match assocGet? globalOverridesMap
              (sessionKeyForTrack n0.courseId n0) with
          | some ov =>
            ({ n0 with
                Staff := ov.Staff.getD n0.Staff
                Time := ov.Time.getD n0.Time },
              true, "Synced from modified track")
          | none => (n0, s.isModified, s.modifiedReason)
        else (n0, s.isModified, s.modifiedReason)
      let step2 :=
        if shouldSyncWithModified && s.source ≠ "track" then
          let adj := applyTrackSpecificAdjustments step1.1 step1.1.courseId
            activeTrackOption activeTrackOverrideMap
          if adj.isModified then (adj.session, true, adj.modifiedReason)
          else (adj.session, step1.2.1, step1.2.2)
        else step1
      let normalized :=
        {step2.1 with isModified := step2.2.1, modifiedReason := step2.2.2}
      let key := tableKey normalized
      if acc.1.contains key then acc
      else (acc.1 ++ [key], acc.2 ++ [normalized]))
    ([], [])).2

/-- `currentDamageScore` from `App.jsx`: the damage surface evaluated on
the current table sessions. -/
def currentDamageScore (registeredSessions globalTrackSessions
      previewSessions : List Session)
    (globalOverridesMap : List (String × Patch))
    (shouldSyncWithModified : Bool) (activeTrackOption : Option TrackOption)
    (activeTrackOverrideMap : List (String × Patch)) : Int :=
  damageOf (evaluateSchedule (tableSessions registeredSessions
    globalTrackSessions previewSessions globalOverridesMap
    shouldSyncWithModified activeTrackOption activeTrackOverrideMap))

/-- The planner as wired in `App.jsx`: alternatives derived from the
catalog and registrations, baseline damage from the displayed table
sessions. -/
def generateDamagePlansTop (courses : List Course)
    (registrations : List Registration) (locks : List (String × String))
    (flags : List (String × Bool)) (maxChanges : Nat)
    (globalTrackSessions previewSessions : List Session)
    (globalOverridesMap : List (String × Patch))
    (shouldSyncWithModified : Bool) (activeTrackOption : Option TrackOption)
    (activeTrackOverrideMap : List (String × Patch)) : List Plan :=
  generateDamagePlans (registeredCourseAlternatives courses registrations)
    locks flags maxChanges registrations (coursesById courses)
    (currentDamageScore (flattenSessions (coursesById courses) registrations)
      globalTrackSessions previewSessions globalOverridesMap
      shouldSyncWithModified activeTrackOption activeTrackOverrideMap)

/-! ### Registration (`registerSelection` in `App.jsx`) -/

structure RegResult where
  notice : Option (String × String × String)
  registrations : List Registration
  deriving Repr, DecidableEq

/-- The `setRegistrations` updater of `App.jsx`, and equally the
`upsertRegistration` of `main.js` (findIndex / splice-or-push): replace the
first registration of the course, or append. -/
def upsertRegistration : List Registration → Registration → List Registration
  | [], payload => [payload]
  | r :: rest, payload =>
    if r.courseId = payload.courseId then payload :: rest
    else r :: upsertRegistration rest payload

def conflictMessage (course : Course) (c : ConflictA) : String :=
  "Course: " ++ course.name ++ " | Day: " ++ c.day ++ " | Time: " ++
    (if c.overlap = "" then "Slot overlap" else c.overlap) ++
    " | Conflicting group: " ++ c.existing.GroupName ++ " (" ++
    c.existing.courseName ++ ")"

/-- `registerSelection` from `App.jsx`.  The radio picks are modelled as
optional numeric ids (`none` is the empty string); JavaScript's falsiness
of `0` is kept (`some 0` behaves like no pick). -/
def registerSelection (selectedCourse : Option Course)
    (lecturePick subPick : Option Int) (registrations : List Registration)
    (cbid : List (String × Course)) : RegResult :=
  match selectedCourse with
  | none => ⟨none, registrations⟩
  | some course =>
    let chosenLecture := lecturePick.getD 0
    let subTruthy := match subPick with
      | some v => decide (v ≠ 0)
      | none => false
    let hasSubgroups :=
      !((collectGroups course).filter fun g => isSubgroup g.type).isEmpty
    if chosenLecture = 0 then
      ⟨some ("error", "Registration Error", "Select one lecture group first."),
        registrations⟩
    else if hasSubgroups && !subTruthy then
      ⟨some ("error", "Registration Error",
        "This course requires selecting one section/subgroup."), registrations⟩
    else
      let chosenIds :=
        chosenLecture :: (if subTruthy then [subPick.getD 0] else [])
      let selectedEntries := chosenIds.filterMap fun id =>
        course.sessions.find? fun s => s.GroupId = id
      let lectureCount :=
        (selectedEntries.filter fun s => isLecture s.«Type»).length
      let subCount :=
        (selectedEntries.filter fun s => isSubgroup s.«Type»).length
      if 1 < lectureCount || 1 < subCount then
        ⟨some ("error", "Registration Error",
          "You can only register one lecture and one lab per course."),
          registrations⟩
      else
        let candidate := (course.sessions.filter fun s =>
          chosenIds.contains s.GroupId).map fun s =>
            {s with courseName := course.name}
        let others := registrations.filter fun r => r.courseId ≠ course.id
        let existing := flattenSessions cbid others
        match findConflict candidate existing with
        | some conflict =>
          ⟨some ("error", "Conflict Detected", conflictMessage course conflict),
            registrations⟩
        | none =>
          ⟨some ("success", "Saved",
            course.name ++ " registration updated successfully."),
            upsertRegistration registrations ⟨course.id, chosenIds⟩⟩

/-- Every branch of `registerSelection` either leaves the registrations
untouched or announces success. -/
theorem registerSelection_cases (sc : Option Course) (lp sp : Option Int)
    (regs : List Registration) (cbid : List (String × Course)) :
    (registerSelection sc lp sp regs cbid).registrations = regs ∨
      ∃ m, (registerSelection sc lp sp regs cbid).notice =
        some ("success", "Saved", m) := by
  cases sc with
  | none => left; rfl
  | some course =>
    unfold registerSelection
    dsimp only
    repeat' split
    all_goals first
      | (left; rfl)
      | (right; exact ⟨_, rfl⟩)

/-! ### Registration in the vanilla-JS app (`main.js`) -/

/-- `isSubgroupType` from `main.js`: the B side also treats "lab" and
"practical" kinds as subgroups. -/
def isSubgroupType (typeText : String) : Bool :=
  let value := normalizeType typeText
  value = "subgroup" || strIncludes value "sub" || strIncludes value "lab" ||
    strIncludes value "practical"

def isLectureType (typeText : String) : Bool := !isSubgroupType typeText

/-- A vanilla-JS course: its session rows live under `groups`. -/
structure CourseB where
  id : String
  name : String
  groups : List Session
  deriving Repr, DecidableEq

def dedupAux (seen : List Int) : List Int → List Int
  | [] => []
  | x :: xs =>
    if seen.contains x then dedupAux seen xs
    else x :: dedupAux (x :: seen) xs

/-- Iterating `new Set(selectedIds)` visits the distinct ids in
first-insertion order. -/
def dedupIds (ids : List Int) : List Int := dedupAux [] ids

/-- `validateRegistrationSelection` from `main.js`, returning the alert
text instead of alerting and returning `false`. -/
def validateRegistrationSelection (course : CourseB)
    (selectedIds : List Int) : Option String :=
  let selectedGroups := (dedupIds selectedIds).filterMap fun id =>
    course.groups.find? fun g => g.GroupId = id
  let lectureCount :=
    (selectedGroups.filter fun g => isLectureType g.«Type»).length
  let subgroupCount :=
    (selectedGroups.filter fun g => isSubgroupType g.«Type»).length
  if 1 < lectureCount || 1 < subgroupCount then
    some "You can only register one lecture and one lab per course."
  else if lectureCount = 0 then some "Select one lecture group."
  else none

/-- `collectRegisteredSessions` from `main.js`.  (The render-only
`selectedGroupName` copy of `GroupName` is not modelled; nothing embedded
reads it.) -/
def collectRegisteredSessions (cbid : List (String × CourseB))
    (registrations : List Registration) : List Session :=
  registrations.foldl
    (fun all reg =>
      match assocGet? cbid reg.courseId with
      | none => all
      | some course =>
        all ++
          ((course.groups.filter fun g =>
              reg.selectedGroupIds.contains g.GroupId).map fun g =>
            { g with courseId := course.id, courseName := course.name }))
    []

structure RegResultB where
  alert : Option String
  registrations : List Registration
  deriving Repr, DecidableEq

/-- The conflict alert text of `handleRegistrationSubmit` (JavaScript `||`
falls back on an empty day name, an empty group name, and an empty
formatted range). -/
def conflictAlert (course : CourseB) (c : ConflictB) : String :=
  let day := if c.candidate.DayWeekName ≠ "" then c.candidate.DayWeekName
    else toString c.candidate.DayWeek
  let conflictingGroup := if c.existing.GroupName ≠ "" then
    c.existing.GroupName else toString c.existing.GroupId
  let overlapText := if formatSlotRange (some c.overlapSlotRange) ≠ "" then
    formatSlotRange (some c.overlapSlotRange) else c.candidate.Time
  "Conflict detected\n" ++ "Course: " ++ course.name ++ "\n" ++ "Day: " ++
    day ++ "\n" ++ "Time: " ++ overlapText ++ "\n" ++
    "Conflicting group: " ++ conflictingGroup ++ " (" ++
    c.existing.courseName ++ ")"

/-- `handleRegistrationSubmit` from `main.js`.  The checked radio values
are modelled as optional ids (`none`: no radio checked, or the empty value
by which the "No lab/subgroup" option is encoded); alerts are returned
instead of shown. -/
def handleRegistrationSubmit (selectedCourseId : Option String)
    (cbid : List (String × CourseB)) (lecturePick labPick : Option Int)
    (registrations : List Registration) : RegResultB :=
  match selectedCourseId with
  | none => ⟨none, registrations⟩
  | some courseId =>
    match assocGet? cbid courseId with
    | none => ⟨none, registrations⟩
    | some course =>
      match lecturePick with
      | none => ⟨some "Select one lecture group.", registrations⟩
      | some lectureId =>
        let selectedIds := lectureId ::
          (match labPick with | some v => [v] | none => [])
        match validateRegistrationSelection course selectedIds with
        | some msg => ⟨some msg, registrations⟩
        | none =>
          let candidateSessions := (course.groups.filter fun g =>
            selectedIds.contains g.GroupId).map fun g =>
              {g with courseName := course.name}
          let otherRegistrations := registrations.filter fun r =>
            r.courseId ≠ courseId
          let existingSessions :=
            collectRegisteredSessions cbid otherRegistrations
          match findFirstConflict candidateSessions existingSessions with
          | some conflict =>
            ⟨some (conflictAlert course conflict), registrations⟩
          | none =>
            ⟨none, upsertRegistration registrations ⟨courseId, selectedIds⟩⟩

/-- Every branch of `handleRegistrationSubmit` either leaves the
registrations untouched or raises no alert. -/
theorem handleRegistrationSubmit_cases (scid : Option String)
    (cbid : List (String × CourseB)) (lp lab : Option Int)
    (regs : List Registration) :
    (handleRegistrationSubmit scid cbid lp lab regs).registrations = regs ∨
      (handleRegistrationSubmit scid cbid lp lab regs).alert = none := by
  cases scid with
  | none => left; rfl
  | some courseId =>
    unfold handleRegistrationSubmit
    dsimp only
    repeat' split
    all_goals first
      | (left; rfl)
      | (right; rfl)

/-- C7: registration is atomic on failure in both implementations —
whenever the React `registerSelection` reports an error notice, or the
vanilla-JS `handleRegistrationSubmit` raises an alert (a rejected
selection or a detected conflict), the registration list comes back
exactly as it went in. -/
theorem claim_C7 (sc : Option Course) (lp sp : Option Int)
    (regs : List Registration) (cbid : List (String × Course))
    (scid : Option String) (cbidB : List (String × CourseB))
    (lpB labB : Option Int) (regsB : List Registration) :
    (∀ t m, (registerSelection sc lp sp regs cbid).notice =
        some ("error", t, m) →
      (registerSelection sc lp sp regs cbid).registrations = regs) ∧
    (∀ m, (handleRegistrationSubmit scid cbidB lpB labB regsB).alert =
        some m →
      (handleRegistrationSubmit scid cbidB lpB labB regsB).registrations =
        regsB) := by
  constructor
  · intro t m h
    rcases registerSelection_cases sc lp sp regs cbid with h1 | ⟨m2, h2⟩
    · exact h1
    · rw [h] at h2
      simp at h2
  · intro m h
    rcases handleRegistrationSubmit_cases scid cbidB lpB labB regsB with
      h1 | h2
    · exact h1
    · rw [h] at h2
      exact Option.noConfusion h2

def w7session : Session :=
  { DayWeekName := "Monday", Time := "08:45:00 - 09:30:00",
    «Type» := "Lecture", GroupId := 1, GroupName := "G1" }

def w7course : Course := ⟨"c1", "Alpha", [w7session]⟩

def w7courseB : CourseB := ⟨"c1", "Alpha", [w7session]⟩

theorem claim_C7_witness :
    (registerSelection (some w7course) none none [⟨"c1", [1]⟩]
        (coursesById [w7course])).notice =
      some ("error", "Registration Error", "Select one lecture group first.") ∧
    (registerSelection (some w7course) none none [⟨"c1", [1]⟩]
        (coursesById [w7course])).registrations = [⟨"c1", [1]⟩] ∧
    (handleRegistrationSubmit (some "c1") [("c1", w7courseB)] none none
        [⟨"c1", [1]⟩]).alert = some "Select one lecture group." ∧
    (handleRegistrationSubmit (some "c1") [("c1", w7courseB)] none none
        [⟨"c1", [1]⟩]).registrations = [⟨"c1", [1]⟩] :=
  ⟨by decide,
    (claim_C7 (some w7course) none none [⟨"c1", [1]⟩]
        (coursesById [w7course]) (some "c1") [("c1", w7courseB)] none none
        [⟨"c1", [1]⟩]).1
      "Registration Error" "Select one lecture group first." (by decide),
    by decide,
    (claim_C7 (some w7course) none none [⟨"c1", [1]⟩]
        (coursesById [w7course]) (some "c1") [("c1", w7courseB)] none none
        [⟨"c1", [1]⟩]).2
      "Select one lecture group." (by decide)⟩

/-! ### Bookkeeping for the planner's change counting -/

/-- What one course contributes to the `changed` list: `1` when a choice is
selected for it whose key differs from its current key, else `0`. -/
def changeMark (selected : List (String × Choice)) (course : PlanCourse) :
    Nat :=
  match assocGet? selected course.courseId with
  | some ch => if ch.combo.key = course.currentKey then 0 else 1
  | none => 0

theorem mkChanged_length (selected : List (String × Choice)) :
    ∀ ctp : List PlanCourse,
      (mkChanged ctp selected).length = (ctp.map (changeMark selected)).sum := by
  intro ctp
  induction ctp with
  | nil => rfl
  | cons c rest ih =>
    simp only [mkChanged] at ih ⊢
    rw [List.filterMap_cons]
    simp only [List.map_cons, List.sum_cons, changeMark]
    cases hg : assocGet? selected c.courseId with
    | none =>
      simp only [hg, ih]
      omega
    | some ch =>
      by_cases hk : ch.combo.key = c.currentKey
      · simp only [hg, if_pos hk, ih]
        omega
      · simp only [hg, if_neg hk, List.length_cons, ih]
        omega

theorem mkChanged_empty : ∀ ctp : List PlanCourse, mkChanged ctp [] = [] := by
  intro ctp
  induction ctp with
  | nil => rfl
  | cons c rest ih => exact ih

theorem changeMark_set_other {selected : List (String × Choice)}
    {cid : String} {choice : Choice} {c : PlanCourse} (h : c.courseId ≠ cid) :
    changeMark (assocSet selected cid choice) c = changeMark selected c := by
  unfold changeMark
  rw [assocGet?_set_other selected cid c.courseId choice h]

theorem changeMark_set_same (selected : List (String × Choice))
    (choice : Choice) (c : PlanCourse) :
    changeMark (assocSet selected c.courseId choice) c =
      if choice.combo.key = c.currentKey then 0 else 1 := by
  unfold changeMark
  rw [assocGet?_set_same]

/-- Selecting a choice for one course raises the total change mark by at
most that choice's cost, provided course ids are distinct. -/
theorem sum_changeMark_set_le (selected : List (String × Choice))
    (choice : Choice) :
    ∀ (ctp : List PlanCourse) (course : PlanCourse),
      (ctp.map PlanCourse.courseId).Nodup → course ∈ ctp →
      (ctp.map (changeMark (assocSet selected course.courseId choice))).sum ≤
        (ctp.map (changeMark selected)).sum +
          (if choice.combo.key = course.currentKey then 0 else 1) := by
  intro ctp
  induction ctp with
  | nil => intro course _ hmem; cases hmem
  | cons c rest ih =>
    intro course hnd hmem
    simp only [List.map_cons, List.nodup_cons] at hnd
    simp only [List.map_cons, List.sum_cons]
    rcases List.mem_cons.mp hmem with rfl | hmem2
    · rw [changeMark_set_same]
      have htail : rest.map (changeMark (assocSet selected course.courseId
          choice)) = rest.map (changeMark selected) := by
        apply List.map_congr_left
        intro a ha
        apply changeMark_set_other
        intro he
        exact hnd.1 (he ▸ List.mem_map_of_mem PlanCourse.courseId ha)
      rw [htail]
      have h0 : 0 ≤ changeMark selected course := Nat.zero_le _
      omega
    · have hne : c.courseId ≠ course.courseId := by
        intro he
        exact hnd.1 (he ▸ List.mem_map_of_mem PlanCourse.courseId hmem2)
      rw [changeMark_set_other hne]
      have := ih course hnd.2 hmem2
      omega

theorem mkPlan_changeCount (registrations : List Registration)
    (cbid : List (String × Course)) (ctp : List PlanCourse)
    (currentDamage : Int) (selected : List (String × Choice)) (n : Nat) :
    (mkPlan registrations cbid ctp currentDamage selected n).changeCount =
      (mkChanged ctp selected).length := rfl

theorem mkPlan_score (registrations : List Registration)
    (cbid : List (String × Course)) (ctp : List PlanCourse)
    (currentDamage : Int) (selected : List (String × Choice)) (n : Nat) :
    (mkPlan registrations cbid ctp currentDamage selected n).score =
      evaluateSchedule (flattenSessions cbid
        (mkPlan registrations cbid ctp currentDamage selected
          n).nextRegistrations) := rfl

theorem mkPlan_damage (registrations : List Registration)
    (cbid : List (String × Course)) (ctp : List PlanCourse)
    (currentDamage : Int) (selected : List (String × Choice)) (n : Nat) :
    (mkPlan registrations cbid ctp currentDamage selected n).damage =
      damageOf (mkPlan registrations cbid ctp currentDamage selected
        n).score := rfl

theorem mkPlan_improves (registrations : List Registration)
    (cbid : List (String × Course)) (ctp : List PlanCourse)
    (currentDamage : Int) (selected : List (String × Choice)) (n : Nat) :
    (mkPlan registrations cbid ctp currentDamage selected n).improves =
      decide ((mkPlan registrations cbid ctp currentDamage selected
        n).damage < currentDamage) := rfl

/-- The pool invariant of the depth-first search: any plan property `P`
holds for everything in the output pool as long as it holds for the input
pool and for every plan recorded at an unpruned leaf, where `I` is any
invariant of the (selection, accumulated change count) pair that is
preserved by selecting one more choice. -/
theorem dfs_pool (registrations : List Registration)
    (cbid : List (String × Course)) (ctp : List PlanCourse) (maxChanges : Nat)
    (currentDamage : Int) (P : Plan → Prop)
    (I : List (String × Choice) → Nat → Prop)
    (hplan : ∀ selected changeCount poolLen, I selected changeCount →
      ¬ maxChanges < changeCount →
      P (mkPlan registrations cbid ctp currentDamage selected poolLen))
    (hstep : ∀ course, course ∈ ctp → ∀ choice, choice ∈ course.choices →
      ∀ selected changeCount, I selected changeCount →
      I (assocSet selected course.courseId choice)
        (changeCount + choice.changeCost)) :
    ∀ remaining : List PlanCourse, (∀ c ∈ remaining, c ∈ ctp) →
    ∀ (selected : List (String × Choice)) (changeCount : Nat)
      (st : Nat × List Plan), I selected changeCount →
      (∀ p ∈ st.2, P p) →
      ∀ p ∈ (dfs registrations cbid ctp maxChanges currentDamage remaining
        selected changeCount st).2, P p := by
  intro remaining
  induction remaining with
  | nil =>
    intro _ selected changeCount st hI hpool p hp
    simp only [dfs] at hp
    split at hp
    · exact hpool p hp
    · split at hp
      · exact hpool p hp
      · rename_i h1 h2
        simp only [List.mem_append, List.mem_singleton] at hp
        rcases hp with hp | rfl
        · exact hpool p hp
        · exact hplan selected changeCount st.2.length hI h2
  | cons course rest ih =>
    intro hsub selected changeCount st hI hpool p hp
    simp only [dfs] at hp
    split at hp
    · exact hpool p hp
    · split at hp
      · exact hpool p hp
      · have hc : course ∈ ctp := hsub course (List.mem_cons_self _ _)
        have inner : ∀ choices : List Choice,
            (∀ ch ∈ choices, ch ∈ course.choices) →
            ∀ st0 : Nat × List Plan, (∀ q ∈ st0.2, P q) →
            ∀ q ∈ (List.foldl
              (fun st2 choice =>
                if !course.allowChange && choice.combo.key ≠ course.currentKey
                then st2
                else dfs registrations cbid ctp maxChanges currentDamage rest
                  (assocSet selected course.courseId choice)
                  (changeCount + choice.changeCost) st2)
              st0 choices).2, P q := by
          intro choices
          induction choices with
          | nil =>
            intro _ st0 hq0 q hq
            simpa using hq0 q hq
          | cons choice more ihm =>
            intro hchs st0 hq0 q hq
            rw [List.foldl_cons] at hq
            refine ihm (fun ch h => hchs ch (List.mem_cons_of_mem _ h)) _
              ?_ q hq
            intro r hr
            split at hr
            · exact hq0 r hr
            · exact ih (fun c h => hsub c (List.mem_cons_of_mem _ h))
                (assocSet selected course.courseId choice)
                (changeCount + choice.changeCost) st0
                (hstep course hc choice
                  (hchs choice (List.mem_cons_self _ _)) selected changeCount
                  hI)
                hq0 r hr
        exact inner course.choices (fun ch h => h) st hpool p hp

/-- `coursesToPlan` keeps each alternative's course id. -/
theorem coursesToPlanOf_ids (alternatives : List AltCourse)
    (locks : List (String × String)) (flags : List (String × Bool)) :
    (coursesToPlanOf alternatives locks flags).map PlanCourse.courseId =
      alternatives.map AltCourse.courseId := by
  unfold coursesToPlanOf
  rw [List.map_map]
  rfl

/-- Every choice built by `coursesToPlan` carries cost `0` exactly when it
keeps the current key. -/
theorem coursesToPlanOf_cost (alternatives : List AltCourse)
    (locks : List (String × String)) (flags : List (String × Bool)) :
    ∀ course ∈ coursesToPlanOf alternatives locks flags,
      ∀ ch ∈ course.choices,
        ch.changeCost = if ch.combo.key = course.currentKey then 0 else 1 := by
  intro course hc ch hch
  simp only [coursesToPlanOf, List.mem_map] at hc
  obtain ⟨item, hitem, rfl⟩ := hc
  simp only [List.mem_map] at hch
  obtain ⟨combo, hcombo, rfl⟩ := hch
  rfl

/-- Every entry of `coursesById` stores the course under its own id. -/
theorem coursesById_id (courses : List Course) :
    ∀ e ∈ coursesById courses, e.2.id = e.1 := by
  unfold coursesById
  suffices h : ∀ (cs : List Course) (m : List (String × Course)),
      (∀ e ∈ m, e.2.id = e.1) →
      ∀ e ∈ cs.foldl (fun m c => assocSet m c.id c) m, e.2.id = e.1 by
    exact h courses [] (fun e he => absurd he (List.not_mem_nil e))
  intro cs
  induction cs with
  | nil => intro m hm e he; exact hm e he
  | cons c rest ih =>
    intro m hm e he
    refine ih (assocSet m c.id c) ?_ e he
    intro e2 he2
    rcases mem_assocSet he2 with rfl | h2
    · rfl
    · exact hm e2 h2

/-- Mapping a kept value back to its source key turns a `filterMap` into a
sublist of keys. -/
theorem filterMap_ids_sublist {α β γ : Type} (f : α → Option β) (g : β → γ)
    (h : α → γ) (hf : ∀ a b, f a = some b → g b = h a) :
    ∀ l : List α, ((l.filterMap f).map g).Sublist (l.map h) := by
  intro l
  induction l with
  | nil => exact List.Sublist.refl _
  | cons a rest ih =>
    rw [List.filterMap_cons]
    cases hfa : f a with
    | none =>
      simp only [List.map_cons]
      exact ih.cons _
    | some b =>
      simp only [List.map_cons]
      rw [hf a b hfa]
      exact ih.cons₂ _

/-- The alternatives derived from the registrations carry the registered
course ids, as a sublist; in particular they are distinct whenever the
registered course ids are. -/
theorem registeredCourseAlternatives_ids (courses : List Course)
    (registrations : List Registration) :
    ((registeredCourseAlternatives courses registrations).map
      AltCourse.courseId).Sublist
      (registrations.map Registration.courseId) := by
  unfold registeredCourseAlternatives
  apply filterMap_ids_sublist
  intro reg alt heq
  cases hg : assocGet? (coursesById courses) reg.courseId with
  | none =>
    simp only [hg] at heq
    exact Option.noConfusion heq
  | some course =>
    have hid : course.id = reg.courseId :=
      coursesById_id courses (reg.courseId, course) (mem_of_assocGet? hg)
    simp only [hg] at heq
    split at heq
    · exact Option.noConfusion heq
    · cases heq
      exact hid

/-- C5: every plan returned by the planner stays within the requested
change budget (given distinct course ids among the alternatives, which the
app guarantees), and the returned list is ordered by ascending damage, then
ascending change count, then descending overall score, with at most 8
entries. -/
theorem claim_C5 (alternatives : List AltCourse)
    (locks : List (String × String)) (flags : List (String × Bool))
    (maxChanges : Nat) (registrations : List Registration)
    (cbid : List (String × Course)) (currentDamage : Int)
    (hnd : (alternatives.map AltCourse.courseId).Nodup) :
    (∀ p ∈ generateDamagePlans alternatives locks flags maxChanges
        registrations cbid currentDamage, p.changeCount ≤ maxChanges) ∧
    (generateDamagePlans alternatives locks flags maxChanges registrations
        cbid currentDamage).Pairwise planLE ∧
    (generateDamagePlans alternatives locks flags maxChanges registrations
        cbid currentDamage).length ≤ 8 := by
  have hnd2 : ((coursesToPlanOf alternatives locks flags).map
      PlanCourse.courseId).Nodup := by
    rw [coursesToPlanOf_ids]
    exact hnd
  unfold generateDamagePlans
  split
  · exact ⟨fun p hp => absurd hp (List.not_mem_nil p), List.Pairwise.nil,
      Nat.zero_le _⟩
  · refine ⟨?_, ?_, ?_⟩
    · intro p hp
      have hp2 := List.mem_of_mem_take hp
      have hp3 := (List.perm_insertionSort planLE _).mem_iff.mp hp2
      have hplan : ∀ (selected : List (String × Choice)) (changeCount
          poolLen : Nat),
          (mkChanged (coursesToPlanOf alternatives locks flags)
            selected).length ≤ changeCount →
          ¬ maxChanges < changeCount →
          (mkPlan registrations cbid (coursesToPlanOf alternatives locks
            flags) currentDamage selected poolLen).changeCount ≤
            maxChanges := by
        intro sel cc n hI hcc
        rw [mkPlan_changeCount]
        omega
      have hstep : ∀ course, course ∈ coursesToPlanOf alternatives locks
          flags → ∀ choice, choice ∈ course.choices →
          ∀ (selected : List (String × Choice)) (changeCount : Nat),
          (mkChanged (coursesToPlanOf alternatives locks flags)
            selected).length ≤ changeCount →
          (mkChanged (coursesToPlanOf alternatives locks flags)
            (assocSet selected course.courseId choice)).length ≤
            changeCount + choice.changeCost := by
        intro course hcm choice hch sel cc hI
        have hcost := coursesToPlanOf_cost alternatives locks flags course
          hcm choice hch
        rw [mkChanged_length, hcost]
        rw [mkChanged_length] at hI
        have hle := sum_changeMark_set_le sel choice
          (coursesToPlanOf alternatives locks flags) course hnd2 hcm
        omega
      exact dfs_pool registrations cbid
        (coursesToPlanOf alternatives locks flags) maxChanges currentDamage
        (fun q => q.changeCount ≤ maxChanges)
        (fun selected cc => (mkChanged (coursesToPlanOf alternatives locks
          flags) selected).length ≤ cc)
        hplan hstep
        (List.insertionSort (fun a b => a.choices.length ≤ b.choices.length)
          (coursesToPlanOf alternatives locks flags))
        (fun c hcm => (List.perm_insertionSort _ _).subset hcm)
        [] 0 (0, [])
        (by dsimp only; rw [mkChanged_empty]; exact Nat.le_refl 0)
        (fun q hq => absurd hq (List.not_mem_nil q))
        p hp3
    · exact List.Pairwise.sublist (List.take_sublist _ _)
        (List.sorted_insertionSort planLE _)
    · exact List.length_take_le _ _

def w5combo : Combo := ⟨"1", [1], 1, none, "L1"⟩

def w5alt : AltCourse := ⟨"c1", "Alpha", "1", [w5combo], false⟩

theorem claim_C5_witness :
    (∀ p ∈ generateDamagePlans [w5alt] [] [] 1 [⟨"c1", [1]⟩] [] 0,
      p.changeCount ≤ 1) ∧
    (generateDamagePlans [w5alt] [] [] 1 [⟨"c1", [1]⟩] [] 0).Pairwise
      planLE ∧
    (generateDamagePlans [w5alt] [] [] 1 [⟨"c1", [1]⟩] [] 0).length ≤ 8 :=
  claim_C5 [w5alt] [] [] 1 [⟨"c1", [1]⟩] [] 0 (by decide)

/-! ### The baseline of the `improves` flag -/

def cxSession : Session :=
  { DayWeekName := "Monday", Time := "08:45:00 - 09:30:00",
    «Type» := "Lecture", GroupId := 1, GroupName := "G1" }

def cxCourse : Course := ⟨"c1", "Alpha", [cxSession]⟩

def cxRegs : List Registration := [⟨"c1", [1]⟩]

def cxPreview1 : Session :=
  { DayWeekName := "Tuesday", Time := "08:45:00 - 09:30:00",
    «Type» := "Lecture", GroupId := 2, GroupName := "G2", courseId := "c2",
    courseName := "Beta", source := "preview" }

def cxPreview2 : Session :=
  { DayWeekName := "Tuesday", Time := "08:45:00 - 09:30:00",
    «Type» := "Lecture", GroupId := 3, GroupName := "G3", courseId := "c3",
    courseName := "Gamma", source := "preview" }

/-- C8 counterexample: with two clashing preview sessions on display, the
planner's only plan is flagged as improving although its damage equals
(is not strictly below) the damage of the current registrations' session
set — the flag is compared against the damage of the displayed table
(which includes preview and track sessions), not against the current
registrations' materialization. -/
theorem claim_C8_counterexample :
    ((generateDamagePlansTop [cxCourse] cxRegs [] [] 0 [] [cxPreview1,
        cxPreview2] [] false none []).map fun p =>
      (p.improves, decide (p.damage < damageOf (evaluateSchedule
        (flattenSessions (coursesById [cxCourse]) cxRegs))))) =
      [(true, false)] := by decide

/-- C8 (amended): for every plan the planner returns, the plan's damage is
the damage surface `1200*conflicts + 18*gaps + 28*late + 4*activeDays` of
the plan's materialized registration session set, and its `improves` flag
compares that damage against the damage of the *displayed table* session
set (registered plus track plus preview sessions, after overrides), not
against the current registrations' session set alone. -/
theorem claim_C8 (courses : List Course) (registrations : List Registration)
    (locks : List (String × String)) (flags : List (String × Bool))
    (maxChanges : Nat) (globalTrackSessions previewSessions : List Session)
    (globalOverridesMap : List (String × Patch))
    (shouldSyncWithModified : Bool) (activeTrackOption : Option TrackOption)
    (activeTrackOverrideMap : List (String × Patch)) (p : Plan)
    (hp : p ∈ generateDamagePlansTop courses registrations locks flags
      maxChanges globalTrackSessions previewSessions globalOverridesMap
      shouldSyncWithModified activeTrackOption activeTrackOverrideMap) :
    p.score = evaluateSchedule (flattenSessions (coursesById courses)
      p.nextRegistrations) ∧
    p.damage = damageOf p.score ∧
    p.improves = decide (p.damage < currentDamageScore
      (flattenSessions (coursesById courses) registrations)
      globalTrackSessions previewSessions globalOverridesMap
      shouldSyncWithModified activeTrackOption activeTrackOverrideMap) := by
  unfold generateDamagePlansTop generateDamagePlans at hp
  split at hp
  · exact absurd hp (List.not_mem_nil p)
  · have hp2 := List.mem_of_mem_take hp
    have hp3 := (List.perm_insertionSort planLE _).mem_iff.mp hp2
    exact dfs_pool registrations (coursesById courses)
      (coursesToPlanOf (registeredCourseAlternatives courses registrations)
        locks flags)
      maxChanges
      (currentDamageScore (flattenSessions (coursesById courses)
        registrations) globalTrackSessions previewSessions globalOverridesMap
        shouldSyncWithModified activeTrackOption activeTrackOverrideMap)
      (fun q => q.score = evaluateSchedule (flattenSessions
          (coursesById courses) q.nextRegistrations) ∧
        q.damage = damageOf q.score ∧
        q.improves = decide (q.damage < currentDamageScore
          (flattenSessions (coursesById courses) registrations)
          globalTrackSessions previewSessions globalOverridesMap
          shouldSyncWithModified activeTrackOption activeTrackOverrideMap))
      (fun _ _ => True)
      (fun selected changeCount poolLen _ _ => ⟨rfl, rfl, rfl⟩)
      (fun _ _ _ _ _ _ _ => trivial)
      _ (fun c hc => (List.perm_insertionSort _ _).subset hc)
      [] 0 (0, []) trivial
      (fun q hq => absurd hq (List.not_mem_nil q))
      p hp3

def w8Plan : Plan :=
  (generateDamagePlansTop [cxCourse] cxRegs [] [] 0 [] [] [] false none
    []).headD ⟨"", [], 0, [], evaluateSchedule [], 0, false⟩

theorem claim_C8_witness :
    w8Plan.score = evaluateSchedule (flattenSessions
      (coursesById [cxCourse]) w8Plan.nextRegistrations) ∧
    w8Plan.damage = damageOf w8Plan.score ∧
    w8Plan.improves = decide (w8Plan.damage < currentDamageScore
      (flattenSessions (coursesById [cxCourse]) cxRegs) [] [] [] false none
      []) :=
  claim_C8 [cxCourse] cxRegs [] [] 0 [] [] [] false none [] w8Plan
    (by decide)

/-! ### Comparing the two conflict detectors -/

/-- The two sides normalize a session's day with the same code. -/
theorem normalizeDay_eq (e : Session) : normalizeDay e = normalizeDayName e :=
  rfl

/-- `toHHMM` and `normalizeClock` have identical bodies. -/
theorem toHHMM_eq : toHHMM = normalizeClock := rfl

theorem findIdxOpt_congr {α : Type} {p q : α → Bool} :
    ∀ l : List α, (∀ a ∈ l, p a = q a) →
      findIdxOpt p l = findIdxOpt q l := by
  intro l
  induction l with
  | nil => intro _; rfl
  | cons a rest ih =>
    intro h
    rw [findIdxOpt, findIdxOpt, h a (List.mem_cons_self _ _),
      ih (fun b hb => h b (List.mem_cons_of_mem _ hb))]

/-- On the twelve configured slot labels the B side's normalized start
clock is exactly the A side's raw text before the dash. -/
theorem slots_clock :
    ∀ slot ∈ TIME_SLOTS, slotStartClock slot = some (firstDashField slot) :=
  by decide

theorem span_posA (ty : String) : 1 ≤ forcedSpanByType ty := by
  unfold forcedSpanByType
  split <;> omega

theorem span_posB (ty : String) : 1 ≤ getForcedSpanByType ty := by
  unfold getForcedSpanByType
  dsimp only
  split <;> omega

/-- A successfully parsed clock range yields the raw start clock of the
A side. -/
theorem toClockRange_parts {t : String} {a b : List Char}
    (h : toClockRange t = some (a, b)) : startClockOf t = some a := by
  unfold toClockRange at h
  split at h
  · exact Option.noConfusion h
  · split at h
    case _ p1 p2 heq =>
      split at h
      case _ hna hnb =>
        cases h
        unfold startClockOf firstDashField
        cases hs : splitOnChar '-' t.data with
        | nil => rw [hs] at heq; simp at heq
        | cons q1 rest =>
          rw [hs] at heq
          cases rest with
          | nil => simp at heq
          | cons q2 rest2 =>
            cases rest2 with
            | cons q3 r3 => simp at heq
            | nil =>
              simp only [List.map_cons, List.map_nil, List.cons.injEq,
                and_true] at heq
              rw [List.headD_cons, heq.1]
              exact hna
      case _ => exact Option.noConfusion h
    case _ => exact Option.noConfusion h

/-- When the B side can parse the time text and the two sides force the
same span, the parsed slot ranges coincide. -/
theorem parse_agree (s : Session)
    (htime : (toClockRange s.Time).isSome = true)
    (hspan : forcedSpanByType s.«Type» = getForcedSpanByType s.«Type») :
    slotRange s = (parseTimeRangeToSlotRange s.Time s.«Type»).map
      (fun r => ⟨r.startIndex, r.endIndexExclusive,
        forcedSpanByType s.«Type»⟩) := by
  rcases Option.isSome_iff_exists.mp htime with ⟨⟨a, b⟩, hcl⟩
  have hstart : startClockOf s.Time = some a := toClockRange_parts hcl
  unfold slotRange startSlotIndex parseTimeRangeToSlotRange
  rw [hstart, hcl]
  dsimp only
  have hpred : findIdxOpt (fun slot => firstDashField slot = a) TIME_SLOTS =
      findIdxOpt (fun slot => slotStartClock slot = some a) TIME_SLOTS := by
    apply findIdxOpt_congr
    intro slot hslot
    rw [slots_clock slot hslot]
    simp
  rw [hpred, hspan]
  cases hidx : findIdxOpt (fun slot => slotStartClock slot = some a)
      TIME_SLOTS with
  | none => rfl
  | some i =>
    dsimp only
    split <;> rfl

/-- The B-side parser only returns in-bounds, non-empty ranges. -/
theorem parse_bounds {t ty : String} {r : SlotRangeB}
    (h : parseTimeRangeToSlotRange t ty = some r) :
    r.startIndex < r.endIndexExclusive ∧ r.endIndexExclusive ≤ 12 := by
  unfold parseTimeRangeToSlotRange at h
  split at h
  · exact Option.noConfusion h
  · split at h
    · exact Option.noConfusion h
    · rename_i startIdx hfind
      have h2 : (if TIME_SLOTS.length < startIdx + getForcedSpanByType ty
          then none
          else some (⟨startIdx, startIdx + getForcedSpanByType ty⟩ :
            SlotRangeB)) = some r := h
      split at h2
      · exact Option.noConfusion h2
      · rename_i hguard
        cases h2
        have hsp := span_posB ty
        have h12 : TIME_SLOTS.length = 12 := rfl
        rw [h12] at hguard
        constructor <;> (first | omega | (dsimp only; omega))

/-- `overlapLabel` only looks at the clamped pair `(max starts, min stops)`. -/
theorem overlapLabel_eq_max_min (a b : SlotRange) :
    overlapLabel a b =
      overlapLabel ⟨max a.start b.start, min a.stop b.stop, 0⟩
        ⟨max a.start b.start, min a.stop b.stop, 0⟩ := by
  unfold overlapLabel
  simp [Nat.max_self, Nat.min_self]

/-- For every in-range pair of slot indices the A side's overlap label and
the B side's formatted slot range print the same text. -/
theorem label_key :
    ∀ (s : Fin 12) (e : Fin 13), s.1 < e.1 →
      overlapLabel ⟨s.1, e.1, 0⟩ ⟨s.1, e.1, 0⟩ =
        formatSlotRange (some ⟨s.1, e.1⟩) := by decide

theorem overlapLabel_format (x y : SlotRange) (hx : x.start < x.stop)
    (hx2 : x.stop ≤ 12) (hy : y.start < y.stop) (hy2 : y.stop ≤ 12)
    (hov1 : x.start < y.stop) (hov2 : y.start < x.stop) :
    overlapLabel x y =
      formatSlotRange (some ⟨max x.start y.start, min x.stop y.stop⟩) := by
  rw [overlapLabel_eq_max_min]
  have hs : max x.start y.start < 12 := by omega
  have he : min x.stop y.stop < 13 := by omega
  have hlt : max x.start y.start < min x.stop y.stop := by omega
  exact label_key ⟨max x.start y.start, hs⟩ ⟨min x.stop y.stop, he⟩ hlt

theorem scanExisting_candidate (a : Session) (dayA : String)
    (rb : SlotRangeB) :
    ∀ (cur : List Session) (r : ConflictB),
      scanExisting a dayA rb cur = some r → r.candidate = a := by
  intro cur
  induction cur with
  | nil => intro r h; exact Option.noConfusion h
  | cons b rest ih =>
    intro r h
    rw [scanExisting] at h
    split at h
    · exact ih r h
    · split at h
      · exact ih r h
      · split at h
        · cases h; rfl
        · exact ih r h

theorem day_subset (d : String) (h : DAY_ORDER.contains d = true) :
    DAYS.contains d = true := by
  have hm : d ∈ DAY_ORDER := by simpa using h
  simp only [DAY_ORDER, List.mem_cons, List.not_mem_nil, or_false] at hm
  rcases hm with rfl | rfl | rfl | rfl | rfl <;> decide

theorem days_eq_of_ne (d : String) (hne : d ≠ "Saturday") :
    DAYS.contains d = DAY_ORDER.contains d := by
  by_cases h : d ∈ DAY_ORDER
  · have h1 : DAY_ORDER.contains d = true := by simpa using h
    rw [h1, day_subset d h1]
  · have h1 : DAY_ORDER.contains d = false := by simpa using h
    have h2 : DAYS.contains d = false := by
      have hnot : d ∉ DAYS := by
        intro hd
        have hd2 : d = "Saturday" ∨ d ∈ DAY_ORDER := by
          simpa [DAYS, DAY_ORDER] using hd
        rcases hd2 with rfl | hd3
        · exact hne rfl
        · exact h hd3
      simpa using hnot
    rw [h1, h2]

/-- Inner-loop agreement: when every existing session parses the same way
on both sides, the A-side scan returns exactly the converted B-side
record. -/
theorem scan_agree (a : Session) (dayA : String) (ra : SlotRange)
    (rb : SlotRangeB) (hc1 : ra.start = rb.startIndex)
    (hc2 : ra.stop = rb.endIndexExclusive)
    (hb1 : rb.startIndex < rb.endIndexExclusive)
    (hb2 : rb.endIndexExclusive ≤ 12) :
    ∀ cur : List Session,
      (∀ s ∈ cur, (toClockRange s.Time).isSome = true ∧
        forcedSpanByType s.«Type» = getForcedSpanByType s.«Type») →
      scanExistingA dayA ra cur = (scanExisting a dayA rb cur).map
        (fun r => (⟨dayA, r.existing,
          formatSlotRange (some r.overlapSlotRange)⟩ : ConflictA)) := by
  intro cur
  induction cur with
  | nil => intro _; rfl
  | cons b rest ih =>
    intro hall
    obtain ⟨htb, hsb⟩ := hall b (List.mem_cons_self _ _)
    have hrest := ih (fun s hs => hall s (List.mem_cons_of_mem _ hs))
    have hpb := parse_agree b htb hsb
    cases hpbB : parseTimeRangeToSlotRange b.Time b.«Type» with
    | none =>
      rw [hpbB, Option.map_none'] at hpb
      simp only [scanExistingA, scanExisting, hpb, hpbB, ite_self]
      exact hrest
    | some rbB =>
      rw [hpbB, Option.map_some'] at hpb
      obtain ⟨hbb1, hbb2⟩ := parse_bounds hpbB
      simp only [scanExistingA, scanExisting, hpb, hpbB]
      by_cases hday : normalizeDay b = dayA
      · rw [if_neg (fun h0 => h0 hday.symm),
          if_neg (show ¬ normalizeDayName b ≠ dayA from fun h0 => h0 hday)]
        have hove : rangesOverlap ra ⟨rbB.startIndex, rbB.endIndexExclusive,
            forcedSpanByType b.«Type»⟩ = isSlotOverlap rb rbB := by
          unfold rangesOverlap isSlotOverlap
          rw [hc1, hc2]
        by_cases hov : isSlotOverlap rb rbB = true
        · rw [if_pos (show rangesOverlap ra ⟨rbB.startIndex,
              rbB.endIndexExclusive, forcedSpanByType b.«Type»⟩ = true by
                rw [hove]; exact hov),
            if_pos hov, Option.map_some']
          have hovp : rb.startIndex < rbB.endIndexExclusive ∧
              rbB.startIndex < rb.endIndexExclusive := by
            simpa [isSlotOverlap] using hov
          have hlab := overlapLabel_format ra
            ⟨rbB.startIndex, rbB.endIndexExclusive, forcedSpanByType b.«Type»⟩
            (by omega) (by omega) (by dsimp only; omega) (by dsimp only; omega)
            (by dsimp only; omega) (by dsimp only; omega)
          rw [hlab, hc1, hc2]
        · rw [if_neg (show ¬ rangesOverlap ra ⟨rbB.startIndex,
              rbB.endIndexExclusive, forcedSpanByType b.«Type»⟩ = true by
                rw [hove]; exact hov),
            if_neg hov]
          exact hrest
      · rw [if_pos (fun h0 => hday h0.symm),
          if_pos (show normalizeDayName b ≠ dayA from fun h0 => hday h0)]
        exact hrest

/-- Outer-loop agreement between the two conflict detectors, away from
Saturday candidates and for time texts both sides parse alike. -/
theorem findConflict_agree :
    ∀ cand cur : List Session,
      (∀ x ∈ cand, normalizeDay x ≠ "Saturday") →
      (∀ s ∈ cand, (toClockRange s.Time).isSome = true ∧
        forcedSpanByType s.«Type» = getForcedSpanByType s.«Type») →
      (∀ s ∈ cur, (toClockRange s.Time).isSome = true ∧
        forcedSpanByType s.«Type» = getForcedSpanByType s.«Type») →
      findConflict cand cur = (findFirstConflict cand cur).map
        (fun r => (⟨normalizeDayName r.candidate, r.existing,
          formatSlotRange (some r.overlapSlotRange)⟩ : ConflictA)) := by
  intro cand
  induction cand with
  | nil => intro cur _ _ _; rfl
  | cons a rest ih =>
    intro cur hsat hcand hcur
    obtain ⟨hta, hsa⟩ := hcand a (List.mem_cons_self _ _)
    have ihr := ih cur (fun x hx => hsat x (List.mem_cons_of_mem _ hx))
      (fun s hs => hcand s (List.mem_cons_of_mem _ hs)) hcur
    have hpa := parse_agree a hta hsa
    cases hpaB : parseTimeRangeToSlotRange a.Time a.«Type» with
    | none =>
      rw [hpaB, Option.map_none'] at hpa
      simp only [findConflict, findFirstConflict, hpa, hpaB, ite_self]
      exact ihr
    | some rb =>
      rw [hpaB, Option.map_some'] at hpa
      obtain ⟨hb1, hb2⟩ := parse_bounds hpaB
      simp only [findConflict, findFirstConflict, hpa, hpaB]
      rw [show normalizeDayName a = normalizeDay a from rfl]
      by_cases hdin : DAY_ORDER.contains (normalizeDay a) = true
      · have hdays : DAYS.contains (normalizeDay a) = true :=
          day_subset _ hdin
        rw [if_neg (show ¬ (!DAYS.contains (normalizeDay a)) = true by
              rw [hdays]; simp),
            if_neg (show ¬ (!DAY_ORDER.contains (normalizeDay a)) = true by
              rw [hdin]; simp)]
        rw [scan_agree a (normalizeDay a) _ rb rfl rfl hb1 hb2 cur hcur]
        cases hscan : scanExisting a (normalizeDay a) rb cur with
        | none =>
          simp only [hscan, Option.map_none']
          exact ihr
        | some r =>
          simp only [hscan, Option.map_some']
          rw [scanExisting_candidate a _ rb cur r hscan]
          rfl
      · have hd0 : DAY_ORDER.contains (normalizeDay a) = false := by
          revert hdin
          cases DAY_ORDER.contains (normalizeDay a) <;> simp
        have hdays0 : DAYS.contains (normalizeDay a) = false := by
          rw [days_eq_of_ne _ (hsat a (List.mem_cons_self _ _))]
          exact hd0
        rw [if_pos (show (!DAYS.contains (normalizeDay a)) = true by
              rw [hdays0]; rfl),
            if_pos (show (!DAY_ORDER.contains (normalizeDay a)) = true by
              rw [hd0]; rfl)]
        exact ihr

def c10cand : Session :=
  { DayWeekName := "Saturday", Time := "08:45:00 - 09:30:00",
    «Type» := "Lecture", GroupId := 1, GroupName := "S1" }

def c10cur : Session :=
  { DayWeekName := "Saturday", Time := "08:45:00 - 09:30:00",
    «Type» := "Lecture", GroupId := 2, GroupName := "S2" }

/-- C10 counterexample: two clashing Saturday sessions are reported as a
conflict by the React app's `findConflict` (whose day whitelist includes
Saturday) but not by the vanilla-JS `findFirstConflict` (whose five-day
`DAY_ORDER` omits Saturday), so the two detectors are not equivalent. -/
theorem claim_C10_counterexample :
    findConflict [c10cand] [c10cur] =
      some ⟨"Saturday", c10cur, "08:45 - 09:30"⟩ ∧
    findFirstConflict [c10cand] [c10cur] = none := by decide

/-- C10 (amended): the two conflict detectors agree — `findConflict`
returns exactly the day/existing/overlap conversion of the record
`findFirstConflict` returns — provided no candidate normalizes to
"Saturday" and, for every session of either list, the time text splits
into two clock parts (so both sides parse it alike) and the two sides
force the same slot span for its kind; without the Saturday restriction
the detectors genuinely differ. -/
theorem claim_C10 (cand cur : List Session)
    (hsat : ∀ x ∈ cand, normalizeDay x ≠ "Saturday")
    (hwf : ∀ s ∈ cand ++ cur, (toClockRange s.Time).isSome = true ∧
      forcedSpanByType s.«Type» = getForcedSpanByType s.«Type») :
    findConflict cand cur = (findFirstConflict cand cur).map
      (fun r => (⟨normalizeDayName r.candidate, r.existing,
        formatSlotRange (some r.overlapSlotRange)⟩ : ConflictA)) :=
  findConflict_agree cand cur hsat
    (fun s hs => hwf s (List.mem_append_left _ hs))
    (fun s hs => hwf s (List.mem_append_right _ hs))

def w10cand : Session :=
  { DayWeekName := "Monday", Time := "08:45:00 - 09:30:00",
    «Type» := "Lecture", GroupId := 1 }

def w10cur : Session :=
  { DayWeekName := "Monday", Time := "08:45:00 - 09:30:00",
    «Type» := "Sub", GroupId := 2 }

theorem claim_C10_witness :
    findConflict [w10cand] [w10cur] =
      (findFirstConflict [w10cand] [w10cur]).map
        (fun r => (⟨normalizeDayName r.candidate, r.existing,
          formatSlotRange (some r.overlapSlotRange)⟩ : ConflictA)) :=
  claim_C10 [w10cand] [w10cur] (by decide) (by decide)

/-! ### Characterization of the B side's slot-range parser -/

/-- Does the B side's normalized start clock of a raw time text equal the
start clock of configured slot `i`?  (`startClockOf` is the same
computation as the B side's normalization of the part before the first
`"-"`: `toHHMM = normalizeClock`, both applied to the trimmed first dash
field.) -/
def startsAtSlotB (t : String) (i : Nat) : Bool :=
  match startClockOf t with
  | some c => slotStartClock (TIME_SLOTS.getD i "") = some c
  | none => false

/-- The twelve configured slots have pairwise distinct normalized start
clocks. -/
theorem slotClocks_injective :
    ∀ i : Fin 12, ∀ j : Fin 12,
      slotStartClock (TIME_SLOTS.getD i.val "") =
        slotStartClock (TIME_SLOTS.getD j.val "") → i = j := by
  decide

theorem startsAtSlotB_unique {t : String} {i j : Nat}
    (hi : i < TIME_SLOTS.length) (hj : j < TIME_SLOTS.length)
    (h1 : startsAtSlotB t i = true) (h2 : startsAtSlotB t j = true) :
    i = j := by
  unfold startsAtSlotB at h1 h2
  cases hc : startClockOf t with
  | none =>
    rw [hc] at h1
    cases h1
  | some c =>
    rw [hc] at h1 h2
    have hlen : TIME_SLOTS.length = 12 := by decide
    have hi12 : i < 12 := hlen ▸ hi
    have hj12 : j < 12 := hlen ▸ hj
    have h1' : slotStartClock (TIME_SLOTS.getD i "") = some c := by
      simpa using h1
    have h2' : slotStartClock (TIME_SLOTS.getD j "") = some c := by
      simpa using h2
    have := slotClocks_injective ⟨i, hi12⟩ ⟨j, hj12⟩ (h1'.trans h2'.symm)
    exact congrArg Fin.val this

/-- The vanilla-JS `parseTimeRangeToSlotRange` fails exactly when the raw
text does not split into two parseable clock parts, or the start clock
matches no configured slot boundary, or the matched index plus the forced
span runs past the last slot; otherwise the range is
`{startIndex := i, endIndexExclusive := i + span}`. -/
theorem parseTimeRange_spec (t ty : String) :
    (parseTimeRangeToSlotRange t ty = none ↔
        toClockRange t = none ∨
        (∀ i < TIME_SLOTS.length, startsAtSlotB t i = false) ∨
        (∃ i < TIME_SLOTS.length, startsAtSlotB t i = true ∧
            TIME_SLOTS.length < i + getForcedSpanByType ty)) ∧
    (∀ r, parseTimeRangeToSlotRange t ty = some r ↔
        toClockRange t ≠ none ∧
        ∃ i < TIME_SLOTS.length, startsAtSlotB t i = true ∧
          i + getForcedSpanByType ty ≤ TIME_SLOTS.length ∧
          r = ⟨i, i + getForcedSpanByType ty⟩) := by
  constructor
  · unfold parseTimeRangeToSlotRange
    cases hc : toClockRange t with
    | none =>
      simp only [true_iff]
      exact Or.inl trivial
    | some clocks =>
      rcases clocks with ⟨a, b⟩
      have hstart : startClockOf t = some a := toClockRange_parts hc
      dsimp only
      cases hidx : findIdxOpt (fun slot => slotStartClock slot = some a)
          TIME_SLOTS with
      | none =>
        rw [findIdxOpt_eq_none] at hidx
        simp only [true_iff]
        refine Or.inr (Or.inl ?_)
        intro i hi
        unfold startsAtSlotB
        rw [hstart]
        have hmem : TIME_SLOTS.getD i "" ∈ TIME_SLOTS := by
          rw [List.getD_eq_getElem TIME_SLOTS "" hi]
          exact List.getElem_mem hi
        simpa using hidx _ hmem
      | some i =>
        dsimp only
        rw [findIdxOpt_eq_some ""] at hidx
        have hhit : startsAtSlotB t i = true := by
          unfold startsAtSlotB
          rw [hstart]
          exact hidx.2.1
        by_cases hspan : TIME_SLOTS.length < i + getForcedSpanByType ty
        · simp only [hspan, if_pos, true_iff]
          exact Or.inr (Or.inr ⟨i, hidx.1, hhit, hspan⟩)
        · rw [if_neg hspan]
          constructor
          · intro h
            cases h
          · rintro (hcn | hnone | ⟨j, hj, hjhit, hjspan⟩)
            · exact Option.noConfusion hcn
            · have := hnone i hidx.1
              rw [hhit] at this
              cases this
            · have hij : i = j := startsAtSlotB_unique hidx.1 hj hhit hjhit
              subst hij
              exact absurd hjspan hspan
  · intro r
    unfold parseTimeRangeToSlotRange
    cases hc : toClockRange t with
    | none =>
      constructor
      · intro h
        cases h
      · rintro ⟨hcn, -⟩
        exact absurd rfl hcn
    | some clocks =>
      rcases clocks with ⟨a, b⟩
      have hstart : startClockOf t = some a := toClockRange_parts hc
      dsimp only
      cases hidx : findIdxOpt (fun slot => slotStartClock slot = some a)
          TIME_SLOTS with
      | none =>
        rw [findIdxOpt_eq_none] at hidx
        constructor
        · intro h
          cases h
        · rintro ⟨-, i, hi, hhit, -⟩
          have hfalse : startsAtSlotB t i = false := by
            unfold startsAtSlotB
            rw [hstart]
            have hmem : TIME_SLOTS.getD i "" ∈ TIME_SLOTS := by
              rw [List.getD_eq_getElem TIME_SLOTS "" hi]
              exact List.getElem_mem hi
            simpa using hidx _ hmem
          rw [hhit] at hfalse
          cases hfalse
      | some i =>
        dsimp only
        rw [findIdxOpt_eq_some ""] at hidx
        have hhit : startsAtSlotB t i = true := by
          unfold startsAtSlotB
          rw [hstart]
          exact hidx.2.1
        by_cases hspan : TIME_SLOTS.length < i + getForcedSpanByType ty
        · rw [if_pos hspan]
          constructor
          · intro h
            cases h
          · rintro ⟨-, j, hj, hjhit, hjspan, -⟩
            have hij : i = j := startsAtSlotB_unique hidx.1 hj hhit hjhit
            subst hij
            exact absurd hjspan (by omega)
        · rw [if_neg hspan]
          rw [Option.some_inj]
          constructor
          · rintro rfl
            exact ⟨fun hcon => Option.noConfusion hcon,
              i, hidx.1, hhit, by omega, rfl⟩
          · rintro ⟨-, j, hj, hjhit, hjspan, rfl⟩
            have hij : i = j := startsAtSlotB_unique hidx.1 hj hhit hjhit
            subst hij
            rfl

/-- C9 counterexample: the time text "08:45 - banana" has its start clock
aligned to the boundary of slot 0 with the forced span in bounds — the
React side's `slotRange` parses it to `[0,1)` — yet the vanilla-JS
`parseTimeRangeToSlotRange` returns null because it also demands a second
parseable clock part; so "null exactly when unaligned or out of bounds" is
false for the B side. -/
theorem claim_C9_counterexample :
    startsAtSlotB "08:45 - banana" 0 = true ∧
    startSlotIndex "08:45 - banana" = some 0 ∧
    slotRange { Time := "08:45 - banana", «Type» := "Group" } =
      some ⟨0, 1, 1⟩ ∧
    parseTimeRangeToSlotRange "08:45 - banana" "Group" = none := by decide

/-- C9 (amended): the React side's `slotRange` returns null exactly when
the start clock does not equal the start boundary of any of the 12
configured slots or the matched index plus the forced span exceeds 12, and
otherwise returns `{start := i, endExclusive := i + span}`; the vanilla-JS
`parseTimeRangeToSlotRange` has one additional null case — the raw text
must also split into exactly two parseable clock parts — and is otherwise
characterized the same way. -/
theorem claim_C9 (e : Session) (t ty : String) :
    ((slotRange e = none ↔
        (∀ i < TIME_SLOTS.length, startsAtSlot e.Time i = false) ∨
        (∃ i < TIME_SLOTS.length, startsAtSlot e.Time i = true ∧
            TIME_SLOTS.length < i + forcedSpanByType e.«Type»)) ∧
      (∀ r, slotRange e = some r ↔
        ∃ i < TIME_SLOTS.length, startsAtSlot e.Time i = true ∧
          i + forcedSpanByType e.«Type» ≤ TIME_SLOTS.length ∧
          r = ⟨i, i + forcedSpanByType e.«Type», forcedSpanByType e.«Type»⟩)) ∧
    ((parseTimeRangeToSlotRange t ty = none ↔
        toClockRange t = none ∨
        (∀ i < TIME_SLOTS.length, startsAtSlotB t i = false) ∨
        (∃ i < TIME_SLOTS.length, startsAtSlotB t i = true ∧
            TIME_SLOTS.length < i + getForcedSpanByType ty)) ∧
      (∀ r, parseTimeRangeToSlotRange t ty = some r ↔
        toClockRange t ≠ none ∧
        ∃ i < TIME_SLOTS.length, startsAtSlotB t i = true ∧
          i + getForcedSpanByType ty ≤ TIME_SLOTS.length ∧
          r = ⟨i, i + getForcedSpanByType ty⟩)) :=
  ⟨slotRange_spec e, parseTimeRange_spec t ty⟩

end Schedules
